import Mathlib

/-!
# Verification of the TinyPedal fuel / relative-standings core

A shallow embedding, in Lean 4, of the data-derivation core of the TinyPedal
telemetry overlay:

* `tinypedal/module/module_fuel.py` — the per-tick fuel consumption state
  machine (`calc_data`), telemetry clamping (`telemetry_fuel`) and the
  consumption-curve persistence pair (`save_delta` / `load_delta`);
* `tinypedal/module/module_relative.py` — the relative-window builder
  (`create_relative_index`) and the standings pipeline
  (`create_class_position`, `create_standings_index`, …);
* `tinypedal/ui/fuel_calculator.py` — the pit-count fixed-point loop of
  `FuelCalculator.run_calculation`.

Python floats are modelled as rationals (`ℚ`), Python ints as `ℤ` (or `ℕ`
where the source guarantees non-negativity, e.g. vehicle indices produced by
`range`).  Python exceptions are modelled with `Except`/`Option`.  Vehicle
class names, which Python holds as strings, are modelled as `ℕ` identifiers:
only their equality and their role as a (stable, arbitrary) sort key are
observable in the verified properties.  The `calculation` and `validator`
helper modules are not part of the sources under verification; the few
helpers needed from them are modelled from the specification document and
are marked `Modelled from the spec:` in their doc comments.
-/

namespace TinyPedal

/-! ## Python primitives -/

/-- Python's `round` on a rational, to an integer: round-half-to-even
("banker's rounding"), as used by `round(x, 6)` in `module_fuel.py`. -/
def pyRoundHalfEven (q : ℚ) : ℤ :=
  if q - ⌊q⌋ < 1/2 then ⌊q⌋
  else if 1/2 < q - ⌊q⌋ then ⌊q⌋ + 1
  else if ⌊q⌋ % 2 = 0 then ⌊q⌋ else ⌊q⌋ + 1

/-- `round6 = partial(round, ndigits=6)` from `module_fuel.py`: round to six
decimal places. -/
def round6 (q : ℚ) : ℚ := (pyRoundHalfEven (q * 1000000) : ℚ) / 1000000

/-- Clamp of a Python slice endpoint: for a list of length `n`, a negative
index counts from the end, and the result is clamped into `[0, n]`. -/
def pySliceIdx (n : ℕ) (i : ℤ) : ℕ :=
  if i < 0 then ((n : ℤ) + i).toNat else min i.toNat n

/-- Python's `l[i:j]` (step 1) with full negative-index semantics. -/
def pySlice {α : Type} (l : List α) (i j : ℤ) : List α :=
  (l.take (pySliceIdx l.length j)).drop (pySliceIdx l.length i)

theorem pySliceIdx_le (n : ℕ) (i : ℤ) : pySliceIdx n i ≤ n := by
  unfold pySliceIdx
  split <;> omega

theorem pySlice_length {α : Type} (l : List α) (i j : ℤ) :
    (pySlice l i j).length = pySliceIdx l.length j - pySliceIdx l.length i := by
  unfold pySlice
  have := pySliceIdx_le l.length j
  simp [List.length_drop, List.length_take]
  omega

theorem pyRoundHalfEven_bounds (q : ℚ) :
    ⌊q⌋ ≤ pyRoundHalfEven q ∧ pyRoundHalfEven q ≤ ⌊q⌋ + 1 := by
  unfold pyRoundHalfEven
  split_ifs <;> omega

theorem pyRoundHalfEven_mono {a b : ℚ} (h : a ≤ b) :
    pyRoundHalfEven a ≤ pyRoundHalfEven b := by
  rcases lt_or_eq_of_le (Int.floor_le_floor h) with hf | hf
  · have ha := (pyRoundHalfEven_bounds a).2
    have hb := (pyRoundHalfEven_bounds b).1
    omega
  · unfold pyRoundHalfEven
    rw [← hf]
    split_ifs <;> first | omega | linarith

theorem round6_mono {a b : ℚ} (h : a ≤ b) : round6 a ≤ round6 b := by
  unfold round6
  have h1 : a * 1000000 ≤ b * 1000000 := by nlinarith
  have h2 := pyRoundHalfEven_mono h1
  have h3 : (pyRoundHalfEven (a * 1000000) : ℚ) ≤ pyRoundHalfEven (b * 1000000) := by
    exact_mod_cast h2
  linarith

theorem round6_zero : round6 0 = 0 := by norm_num [round6, pyRoundHalfEven]

theorem round6_nonneg {q : ℚ} (h : 0 ≤ q) : 0 ≤ round6 q := by
  have := round6_mono h
  rwa [round6_zero] at this

/-! ## `module_fuel.py`: the consumption state machine `calc_data`

The generator `calc_data` is a suspend–resume state machine resumed once per
polling tick.  We embed its per-tick state (the generator's local variables
that feed back into later ticks) and its per-tick inputs (the telemetry
reads at the top of the loop body), and its loop body as a step function.
The strategy outputs computed at the bottom of the loop body
(lines 205–276, `delta_fuel` and the `calc.*` estimates written to
`output`) read these state fields but never write to any of them, so they
are not part of the state. -/

/-- A consumption sample: `(track position, cumulative used, lap time)`.
Mid-lap samples are 2-tuples in Python (no lap time; modelled `none`), the
synthetic terminal sample is a 3-tuple. -/
abbrev Sample : Type := ℚ × ℚ × Option ℚ

/-- `DELTA_ZERO = 0.0,0.0` -/
def DELTA_ZERO : Sample := (0, 0, none)

/-- `DELTA_DEFAULT = (DELTA_ZERO,)` -/
def DELTA_DEFAULT : List Sample := [DELTA_ZERO]

/-- The telemetry values read at the top of each `calc_data` tick
(lines 143–153 of `module_fuel.py`). -/
structure FuelTick where
  /-- `capacity` from `telemetry_func()` -/
  capacity : ℚ
  /-- `amount_curr` from `telemetry_func()` -/
  amount_curr : ℚ
  /-- `api.read.timing.start()` -/
  lap_stime : ℚ
  /-- `api.read.timing.current_laptime()` (before the `max(·, 0)`) -/
  laptime_curr_raw : ℚ
  /-- `api.read.session.remaining()` -/
  time_left : ℚ
  /-- `api.read.vehicle.in_garage()` -/
  in_garage : Bool
  /-- `api.read.lap.distance()` -/
  pos_curr : ℚ
  /-- `api.read.vehicle.position_xyz()` -/
  gps_curr : ℚ × ℚ × ℚ
  /-- `api.read.lap.completed_laps()` -/
  laps_done : ℤ
  /-- `api.read.lap.progress()` -/
  lap_into : ℚ
  /-- `api.read.vehicle.in_pits()` (as a flag) -/
  in_pits : Bool
  /-- `minfo.delta.lapTimePace` -/
  laptime_pace : ℚ
  /-- `api.read.timing.elapsed()` -/
  elapsed : ℚ
  /-- `api.read.timing.last_laptime()` -/
  last_laptime : ℚ
deriving DecidableEq

/-- The cross-tick local variables of `calc_data` (lines 101–131) that are
read back on later ticks. -/
structure CalcState where
  recording : Bool
  delayed_save : Bool
  /-- elapsed-time mark of a pending lap validation; `0` is Python-falsy -/
  validating : ℚ
  /-- whether pit in or pit out lap (`pit_lap`, an int used as a flag) -/
  pit_lap : Bool
  delta_list_last : List Sample
  delta_list_curr : List Sample
  delta_list_temp : List Sample
  amount_start : ℚ
  amount_last : ℚ
  used_curr : ℚ
  used_last : ℚ
  used_last_raw : ℚ
  laptime_last : ℚ
  last_lap_stime : ℚ
  pos_last : ℚ
  pos_synced : Bool
deriving DecidableEq

/-- Lines 155–161: realtime fuel consumption accumulation. -/
def fuelReadingStep (s : CalcState) (amount_curr : ℚ) : CalcState :=
  if s.amount_last < amount_curr then
    { s with amount_last := amount_curr, amount_start := amount_curr }
  else if s.amount_last > amount_curr then
    { s with used_curr := s.used_curr + (s.amount_last - amount_curr),
             amount_last := amount_curr }
  else s

/-- Lines 163–178: lap start & finish detection (without the trailing
`last_lap_stime = lap_stime` reset, applied by the caller). -/
def lapBoundaryStep (s : CalcState) (t : FuelTick) (laptime_curr : ℚ) : CalcState :=
  if t.lap_stime > s.last_lap_stime ∧ s.last_lap_stime ≠ -1 then
    let s1 :=
      if 1 < s.delta_list_curr.length ∧ s.pit_lap = false then
        { s with
            delta_list_temp := s.delta_list_curr ++
              [(round6 (s.pos_last + 10), round6 s.used_curr,
                some (round6 (t.lap_stime - s.last_lap_stime)))],
            validating := t.elapsed }
      else s
    { s1 with delta_list_curr := [DELTA_ZERO], pos_last := t.pos_curr,
              used_last_raw := s1.used_curr, used_curr := 0,
              recording := laptime_curr < 1, pit_lap := false }
  else s

/-- Lines 185–190: record a new positive position sample. -/
def posRecordStep (s : CalcState) (pos_curr : ℚ) : CalcState :=
  if 0 ≤ pos_curr ∧ pos_curr ≠ s.pos_last then
    let s1 :=
      if s.recording ∧ pos_curr > s.pos_last then
        { s with delta_list_curr := s.delta_list_curr ++
            [(round6 pos_curr, round6 s.used_curr, none)] }
      else s
    { s1 with pos_last := pos_curr, pos_synced := true }
  else s

/-- Lines 192–203: lap validation window. -/
def validateStep (s : CalcState) (elapsed last_laptime : ℚ) : CalcState :=
  if s.validating ≠ 0 then
    let timer := elapsed - s.validating
    if 0.3 < timer ∧ timer ≤ 3 ∧ last_laptime > 0 then
      { s with used_last := s.used_last_raw,
               delta_list_last := s.delta_list_temp,
               delta_list_temp := DELTA_DEFAULT,
               delayed_save := true,
               validating := 0 }
    else if timer > 3 then { s with validating := 0 }
    else s
  else s

/-- Line 152 (`pit_lap` accumulation) and line 153 (`laptime_last`). -/
def tickEntry (s : CalcState) (t : FuelTick) : CalcState :=
  { s with pit_lap := s.pit_lap || t.in_pits, laptime_last := t.laptime_pace }

/-- Line 179: `last_lap_stime = lap_stime`. -/
def withLastStime (s : CalcState) (t : FuelTick) : CalcState :=
  { s with last_lap_stime := t.lap_stime }

/-- Condition of the distance-desync guard (line 182), with
`laptime_curr = max(api.read.timing.current_laptime(), 0)` (line 145). -/
def desyncCond (t : FuelTick) : Prop :=
  0 < max t.laptime_curr_raw 0 ∧ max t.laptime_curr_raw 0 < 1 ∧ t.pos_curr > 300

instance (t : FuelTick) : Decidable (desyncCond t) := by
  unfold desyncCond; infer_instance

/-- Line 183, first effect: `pos_last = 0` when the desync guard fires. -/
def desyncFix (s : CalcState) (t : FuelTick) : CalcState :=
  if desyncCond t then { s with pos_last := 0 } else s

/-- Line 183, second effect: the tick's `pos_curr` is forced to `0` when the
desync guard fires. -/
def desyncPos (t : FuelTick) : ℚ :=
  if desyncCond t then 0 else t.pos_curr

/-- The state updates of one `calc_data` tick before the validation block
(lines 145–190): `pit_lap`/`laptime_last`, fuel reading, lap boundary
detection, `last_lap_stime` reset, the distance desync guard, and position
recording. -/
def calcDataPre (s0 : CalcState) (t : FuelTick) : CalcState :=
  posRecordStep
    (desyncFix
      (withLastStime
        (lapBoundaryStep (fuelReadingStep (tickEntry s0 t) t.amount_curr) t
          (max t.laptime_curr_raw 0))
        t)
      t)
    (desyncPos t)

/-- One full `calc_data` tick (the state updates of lines 143–203). -/
def calcDataStep (s0 : CalcState) (t : FuelTick) : CalcState :=
  validateStep (calcDataPre s0 t) t.elapsed t.last_laptime

/-- A run of consecutive ticks. -/
def calcDataRun (s : CalcState) (ticks : List FuelTick) : CalcState :=
  ticks.foldl calcDataStep s

/-- The initial generator state (lines 101–131), from the loaded
`(delta_list_last, used_last, laptime_last)`. -/
def calcDataInit (delta_list_last : List Sample) (used_last laptime_last : ℚ) :
    CalcState where
  recording := false
  delayed_save := false
  validating := 0
  pit_lap := false
  delta_list_last := delta_list_last
  delta_list_curr := [DELTA_ZERO]
  delta_list_temp := DELTA_DEFAULT
  amount_start := 0
  amount_last := 0
  used_curr := 0
  used_last := used_last
  used_last_raw := used_last
  laptime_last := laptime_last
  last_lap_stime := -1
  pos_last := 0
  pos_synced := false

/-- `telemetry_fuel` (lines 92–96): clamp the raw tank capacity reading to
at least 1 and pair it with the current fuel amount. -/
def telemetry_fuel (raw_tank_capacity raw_fuel : ℚ) : ℚ × ℚ :=
  (max raw_tank_capacity 1, raw_fuel)

/-! ### Per-field behaviour of the tick sub-steps -/

@[simp] theorem validateStep_used_curr (s : CalcState) (e l : ℚ) :
    (validateStep s e l).used_curr = s.used_curr := by
  simp only [validateStep]; split_ifs <;> rfl

@[simp] theorem validateStep_amount_last (s : CalcState) (e l : ℚ) :
    (validateStep s e l).amount_last = s.amount_last := by
  simp only [validateStep]; split_ifs <;> rfl

@[simp] theorem validateStep_amount_start (s : CalcState) (e l : ℚ) :
    (validateStep s e l).amount_start = s.amount_start := by
  simp only [validateStep]; split_ifs <;> rfl

@[simp] theorem validateStep_last_lap_stime (s : CalcState) (e l : ℚ) :
    (validateStep s e l).last_lap_stime = s.last_lap_stime := by
  simp only [validateStep]; split_ifs <;> rfl

@[simp] theorem validateStep_delta_list_curr (s : CalcState) (e l : ℚ) :
    (validateStep s e l).delta_list_curr = s.delta_list_curr := by
  simp only [validateStep]; split_ifs <;> rfl

@[simp] theorem validateStep_pos_last (s : CalcState) (e l : ℚ) :
    (validateStep s e l).pos_last = s.pos_last := by
  simp only [validateStep]; split_ifs <;> rfl

@[simp] theorem validateStep_recording (s : CalcState) (e l : ℚ) :
    (validateStep s e l).recording = s.recording := by
  simp only [validateStep]; split_ifs <;> rfl

@[simp] theorem validateStep_pit_lap (s : CalcState) (e l : ℚ) :
    (validateStep s e l).pit_lap = s.pit_lap := by
  simp only [validateStep]; split_ifs <;> rfl

@[simp] theorem posRecordStep_used_curr (s : CalcState) (p : ℚ) :
    (posRecordStep s p).used_curr = s.used_curr := by
  simp only [posRecordStep]; split_ifs <;> rfl

@[simp] theorem posRecordStep_amount_last (s : CalcState) (p : ℚ) :
    (posRecordStep s p).amount_last = s.amount_last := by
  simp only [posRecordStep]; split_ifs <;> rfl

@[simp] theorem posRecordStep_amount_start (s : CalcState) (p : ℚ) :
    (posRecordStep s p).amount_start = s.amount_start := by
  simp only [posRecordStep]; split_ifs <;> rfl

@[simp] theorem posRecordStep_last_lap_stime (s : CalcState) (p : ℚ) :
    (posRecordStep s p).last_lap_stime = s.last_lap_stime := by
  simp only [posRecordStep]; split_ifs <;> rfl

@[simp] theorem posRecordStep_validating (s : CalcState) (p : ℚ) :
    (posRecordStep s p).validating = s.validating := by
  simp only [posRecordStep]; split_ifs <;> rfl

@[simp] theorem posRecordStep_delta_list_last (s : CalcState) (p : ℚ) :
    (posRecordStep s p).delta_list_last = s.delta_list_last := by
  simp only [posRecordStep]; split_ifs <;> rfl

@[simp] theorem posRecordStep_delta_list_temp (s : CalcState) (p : ℚ) :
    (posRecordStep s p).delta_list_temp = s.delta_list_temp := by
  simp only [posRecordStep]; split_ifs <;> rfl

@[simp] theorem posRecordStep_used_last (s : CalcState) (p : ℚ) :
    (posRecordStep s p).used_last = s.used_last := by
  simp only [posRecordStep]; split_ifs <;> rfl

@[simp] theorem posRecordStep_used_last_raw (s : CalcState) (p : ℚ) :
    (posRecordStep s p).used_last_raw = s.used_last_raw := by
  simp only [posRecordStep]; split_ifs <;> rfl

@[simp] theorem posRecordStep_delayed_save (s : CalcState) (p : ℚ) :
    (posRecordStep s p).delayed_save = s.delayed_save := by
  simp only [posRecordStep]; split_ifs <;> rfl

@[simp] theorem posRecordStep_recording (s : CalcState) (p : ℚ) :
    (posRecordStep s p).recording = s.recording := by
  simp only [posRecordStep]; split_ifs <;> rfl

@[simp] theorem posRecordStep_pit_lap (s : CalcState) (p : ℚ) :
    (posRecordStep s p).pit_lap = s.pit_lap := by
  simp only [posRecordStep]; split_ifs <;> rfl

@[simp] theorem fuelReadingStep_validating (s : CalcState) (a : ℚ) :
    (fuelReadingStep s a).validating = s.validating := by
  simp only [fuelReadingStep]; split_ifs <;> rfl

@[simp] theorem fuelReadingStep_delta_list_last (s : CalcState) (a : ℚ) :
    (fuelReadingStep s a).delta_list_last = s.delta_list_last := by
  simp only [fuelReadingStep]; split_ifs <;> rfl

@[simp] theorem fuelReadingStep_delta_list_temp (s : CalcState) (a : ℚ) :
    (fuelReadingStep s a).delta_list_temp = s.delta_list_temp := by
  simp only [fuelReadingStep]; split_ifs <;> rfl

@[simp] theorem fuelReadingStep_delta_list_curr (s : CalcState) (a : ℚ) :
    (fuelReadingStep s a).delta_list_curr = s.delta_list_curr := by
  simp only [fuelReadingStep]; split_ifs <;> rfl

@[simp] theorem fuelReadingStep_used_last (s : CalcState) (a : ℚ) :
    (fuelReadingStep s a).used_last = s.used_last := by
  simp only [fuelReadingStep]; split_ifs <;> rfl

@[simp] theorem fuelReadingStep_used_last_raw (s : CalcState) (a : ℚ) :
    (fuelReadingStep s a).used_last_raw = s.used_last_raw := by
  simp only [fuelReadingStep]; split_ifs <;> rfl

@[simp] theorem fuelReadingStep_last_lap_stime (s : CalcState) (a : ℚ) :
    (fuelReadingStep s a).last_lap_stime = s.last_lap_stime := by
  simp only [fuelReadingStep]; split_ifs <;> rfl

@[simp] theorem fuelReadingStep_pos_last (s : CalcState) (a : ℚ) :
    (fuelReadingStep s a).pos_last = s.pos_last := by
  simp only [fuelReadingStep]; split_ifs <;> rfl

@[simp] theorem fuelReadingStep_recording (s : CalcState) (a : ℚ) :
    (fuelReadingStep s a).recording = s.recording := by
  simp only [fuelReadingStep]; split_ifs <;> rfl

@[simp] theorem fuelReadingStep_pit_lap (s : CalcState) (a : ℚ) :
    (fuelReadingStep s a).pit_lap = s.pit_lap := by
  simp only [fuelReadingStep]; split_ifs <;> rfl

@[simp] theorem fuelReadingStep_delayed_save (s : CalcState) (a : ℚ) :
    (fuelReadingStep s a).delayed_save = s.delayed_save := by
  simp only [fuelReadingStep]; split_ifs <;> rfl

theorem fuelReadingStep_used_curr (s : CalcState) (a : ℚ) :
    (fuelReadingStep s a).used_curr
      = s.used_curr + (if a < s.amount_last then s.amount_last - a else 0) := by
  unfold fuelReadingStep
  rcases lt_trichotomy s.amount_last a with h | h | h
  · rw [if_pos h, if_neg (by linarith)]
    simp
  · rw [if_neg (by linarith), if_neg (by linarith), if_neg (by linarith)]
    simp
  · rw [if_neg (by linarith), if_pos h, if_pos h]

theorem fuelReadingStep_amount_last (s : CalcState) (a : ℚ) :
    (fuelReadingStep s a).amount_last = a := by
  unfold fuelReadingStep
  rcases lt_trichotomy s.amount_last a with h | h | h
  · rw [if_pos h]
  · rw [if_neg (by linarith), if_neg (by linarith)]
    exact h
  · rw [if_neg (by linarith), if_pos h]

/-- Without a lap boundary on this tick, `lapBoundaryStep` is the identity. -/
theorem lapBoundaryStep_eq_self (s : CalcState) (t : FuelTick) (lc : ℚ)
    (h : ¬(t.lap_stime > s.last_lap_stime ∧ s.last_lap_stime ≠ -1)) :
    lapBoundaryStep s t lc = s := by
  unfold lapBoundaryStep
  rw [if_neg h]

/-- Sum of the positive decrements of a gauge-reading sequence, starting
from a given last reading. -/
def sumDecrements (amount_last : ℚ) : List ℚ → ℚ
  | [] => 0
  | r :: rs => (if r < amount_last then amount_last - r else 0) + sumDecrements r rs

@[simp] theorem desyncFix_used_curr (s : CalcState) (t : FuelTick) :
    (desyncFix s t).used_curr = s.used_curr := by
  unfold desyncFix; split_ifs <;> rfl

@[simp] theorem desyncFix_amount_last (s : CalcState) (t : FuelTick) :
    (desyncFix s t).amount_last = s.amount_last := by
  unfold desyncFix; split_ifs <;> rfl

@[simp] theorem desyncFix_amount_start (s : CalcState) (t : FuelTick) :
    (desyncFix s t).amount_start = s.amount_start := by
  unfold desyncFix; split_ifs <;> rfl

@[simp] theorem desyncFix_last_lap_stime (s : CalcState) (t : FuelTick) :
    (desyncFix s t).last_lap_stime = s.last_lap_stime := by
  unfold desyncFix; split_ifs <;> rfl

@[simp] theorem desyncFix_validating (s : CalcState) (t : FuelTick) :
    (desyncFix s t).validating = s.validating := by
  unfold desyncFix; split_ifs <;> rfl

@[simp] theorem desyncFix_delta_list_last (s : CalcState) (t : FuelTick) :
    (desyncFix s t).delta_list_last = s.delta_list_last := by
  unfold desyncFix; split_ifs <;> rfl

@[simp] theorem desyncFix_delta_list_temp (s : CalcState) (t : FuelTick) :
    (desyncFix s t).delta_list_temp = s.delta_list_temp := by
  unfold desyncFix; split_ifs <;> rfl

@[simp] theorem desyncFix_delta_list_curr (s : CalcState) (t : FuelTick) :
    (desyncFix s t).delta_list_curr = s.delta_list_curr := by
  unfold desyncFix; split_ifs <;> rfl

@[simp] theorem desyncFix_used_last (s : CalcState) (t : FuelTick) :
    (desyncFix s t).used_last = s.used_last := by
  unfold desyncFix; split_ifs <;> rfl

@[simp] theorem desyncFix_used_last_raw (s : CalcState) (t : FuelTick) :
    (desyncFix s t).used_last_raw = s.used_last_raw := by
  unfold desyncFix; split_ifs <;> rfl

@[simp] theorem desyncFix_delayed_save (s : CalcState) (t : FuelTick) :
    (desyncFix s t).delayed_save = s.delayed_save := by
  unfold desyncFix; split_ifs <;> rfl

@[simp] theorem desyncFix_recording (s : CalcState) (t : FuelTick) :
    (desyncFix s t).recording = s.recording := by
  unfold desyncFix; split_ifs <;> rfl

@[simp] theorem desyncFix_pit_lap (s : CalcState) (t : FuelTick) :
    (desyncFix s t).pit_lap = s.pit_lap := by
  unfold desyncFix; split_ifs <;> rfl

/-- `calcDataStep` on a tick without a lap boundary: the consumption
accumulator gains exactly the positive decrement of the reading. -/
theorem calcDataStep_used_curr_noBoundary (s : CalcState) (t : FuelTick)
    (h : t.lap_stime = s.last_lap_stime) :
    (calcDataStep s t).used_curr
      = s.used_curr + (if t.amount_curr < s.amount_last then s.amount_last - t.amount_curr else 0) := by
  unfold calcDataStep calcDataPre
  rw [lapBoundaryStep_eq_self _ _ _ (by
    simp only [fuelReadingStep_last_lap_stime, tickEntry, h]
    intro hc
    exact absurd hc.1 (lt_irrefl _))]
  simp [withLastStime, fuelReadingStep_used_curr, tickEntry]

theorem calcDataStep_amount_last_noBoundary (s : CalcState) (t : FuelTick)
    (h : t.lap_stime = s.last_lap_stime) :
    (calcDataStep s t).amount_last = t.amount_curr := by
  unfold calcDataStep calcDataPre
  rw [lapBoundaryStep_eq_self _ _ _ (by
    simp only [fuelReadingStep_last_lap_stime, tickEntry, h]
    intro hc
    exact absurd hc.1 (lt_irrefl _))]
  simp [withLastStime, fuelReadingStep_amount_last, tickEntry]

@[simp] theorem lapBoundaryStep_last_lap_stime (s : CalcState) (t : FuelTick) (lc : ℚ) :
    (lapBoundaryStep s t lc).last_lap_stime = s.last_lap_stime := by
  unfold lapBoundaryStep; split_ifs <;> rfl

theorem calcDataStep_last_lap_stime (s : CalcState) (t : FuelTick) :
    (calcDataStep s t).last_lap_stime = t.lap_stime := by
  unfold calcDataStep calcDataPre
  simp [withLastStime]

/-- C2 helper: a run of boundary-free ticks accumulates exactly the sum of
positive decrements. -/
theorem calcDataRun_used_curr (s : CalcState) (ticks : List FuelTick)
    (hnb : ∀ t ∈ ticks, t.lap_stime = s.last_lap_stime) :
    (calcDataRun s ticks).used_curr
      = s.used_curr + sumDecrements s.amount_last (ticks.map FuelTick.amount_curr) := by
  induction ticks generalizing s with
  | nil => simp [calcDataRun, sumDecrements]
  | cons t ts ih =>
    have ht : t.lap_stime = s.last_lap_stime := hnb t (List.mem_cons_self t ts)
    have hstep_lls := calcDataStep_last_lap_stime s t
    have hrec := ih (calcDataStep s t) (by
      intro u hu
      rw [hstep_lls, ht]
      exact hnb u (List.mem_cons_of_mem t hu))
    simp only [calcDataRun, List.foldl_cons, List.map_cons, sumDecrements] at *
    rw [hrec, calcDataStep_used_curr_noBoundary s t ht,
        calcDataStep_amount_last_noBoundary s t ht]
    ring

/-! ### The validation window (lines 192–203), case by case -/

theorem validateStep_eq_off (s : CalcState) (e l : ℚ) (h0 : s.validating = 0) :
    validateStep s e l = s := by
  unfold validateStep
  rw [if_neg (by simpa using h0)]

theorem validateStep_eq_accept (s : CalcState) (e l : ℚ) (h0 : s.validating ≠ 0)
    (hc : 0.3 < e - s.validating ∧ e - s.validating ≤ 3 ∧ l > 0) :
    validateStep s e l
      = { s with used_last := s.used_last_raw,
                 delta_list_last := s.delta_list_temp,
                 delta_list_temp := DELTA_DEFAULT,
                 delayed_save := true,
                 validating := 0 } := by
  simp only [validateStep]
  rw [if_pos h0, if_pos hc]

theorem validateStep_eq_timeout (s : CalcState) (e l : ℚ) (h0 : s.validating ≠ 0)
    (hna : ¬(0.3 < e - s.validating ∧ e - s.validating ≤ 3 ∧ l > 0))
    (h3 : e - s.validating > 3) :
    validateStep s e l = { s with validating := 0 } := by
  simp only [validateStep]
  rw [if_pos h0, if_neg hna, if_pos h3]

theorem validateStep_eq_wait (s : CalcState) (e l : ℚ) (h0 : s.validating ≠ 0)
    (hna : ¬(0.3 < e - s.validating ∧ e - s.validating ≤ 3 ∧ l > 0))
    (h3 : ¬(e - s.validating > 3)) :
    validateStep s e l = s := by
  simp only [validateStep]
  rw [if_pos h0, if_neg hna, if_neg h3]

/-- Without a lap boundary, the pre-validation part of a tick preserves all
of the validation-related fields. -/
theorem calcDataPre_noBoundary_fields (s : CalcState) (t : FuelTick)
    (h : t.lap_stime = s.last_lap_stime) :
    (calcDataPre s t).validating = s.validating ∧
    (calcDataPre s t).delta_list_last = s.delta_list_last ∧
    (calcDataPre s t).delta_list_temp = s.delta_list_temp ∧
    (calcDataPre s t).used_last = s.used_last ∧
    (calcDataPre s t).used_last_raw = s.used_last_raw ∧
    (calcDataPre s t).delayed_save = s.delayed_save := by
  unfold calcDataPre
  rw [lapBoundaryStep_eq_self _ _ _ (by
    simp only [fuelReadingStep_last_lap_stime, tickEntry, h]
    intro hc
    exact absurd hc.1 (lt_irrefl _))]
  refine ⟨?_, ?_, ?_, ?_, ?_, ?_⟩ <;> simp [withLastStime, tickEntry]

/-- A run of boundary-free ticks with validation switched off leaves the
reference lap and the validation state untouched. -/
theorem calcDataRun_inactive (ticks : List FuelTick) (s : CalcState)
    (h0 : s.validating = 0)
    (hnb : ∀ t ∈ ticks, t.lap_stime = s.last_lap_stime) :
    (calcDataRun s ticks).delta_list_last = s.delta_list_last ∧
    (calcDataRun s ticks).used_last = s.used_last ∧
    (calcDataRun s ticks).validating = 0 := by
  induction ticks generalizing s with
  | nil => exact ⟨rfl, rfl, h0⟩
  | cons t ts ih =>
    have ht : t.lap_stime = s.last_lap_stime := hnb t (List.mem_cons_self t ts)
    have hpre := calcDataPre_noBoundary_fields s t ht
    have hstep : calcDataStep s t = validateStep (calcDataPre s t) t.elapsed t.last_laptime := rfl
    have hoff := validateStep_eq_off (calcDataPre s t) t.elapsed t.last_laptime
      (by rw [hpre.1]; exact h0)
    have hrec := ih (calcDataStep s t)
      (by rw [hstep, hoff, hpre.1]; exact h0)
      (by
        intro u hu
        rw [calcDataStep_last_lap_stime, ht]
        exact hnb u (List.mem_cons_of_mem t hu))
    simp only [calcDataRun, List.foldl_cons] at *
    exact ⟨by rw [hrec.1, hstep, hoff, hpre.2.1],
           by rw [hrec.2.1, hstep, hoff, hpre.2.2.2.1],
           hrec.2.2⟩

/-- Rejection run (part A of validation gating): if every tick landing in
the 3-second window carries a non-positive last-lap time, the reference lap
survives, and a tick past the window switches validation off. -/
theorem calcDataRun_reject (ticks : List FuelTick) (s : CalcState) (m : ℚ)
    (hm : m ≠ 0)
    (h0 : s.validating = m ∨ s.validating = 0)
    (hnb : ∀ t ∈ ticks, t.lap_stime = s.last_lap_stime)
    (hll : ∀ t ∈ ticks, t.elapsed - m ≤ 3 → t.last_laptime ≤ 0) :
    (calcDataRun s ticks).delta_list_last = s.delta_list_last ∧
    (calcDataRun s ticks).used_last = s.used_last ∧
    ((calcDataRun s ticks).validating = m ∨ (calcDataRun s ticks).validating = 0) ∧
    ((∃ t ∈ ticks, 3 < t.elapsed - m) → (calcDataRun s ticks).validating = 0) ∧
    (s.validating = 0 → (calcDataRun s ticks).validating = 0) := by
  induction ticks generalizing s with
  | nil =>
    refine ⟨rfl, rfl, h0, ?_, fun h => h⟩
    rintro ⟨t, ht, -⟩
    exact absurd ht (List.not_mem_nil t)
  | cons t ts ih =>
    rcases h0 with h0 | h0
    · -- validation pending with mark `m`
      have ht : t.lap_stime = s.last_lap_stime := hnb t (List.mem_cons_self t ts)
      have hpre := calcDataPre_noBoundary_fields s t ht
      have hstep : calcDataStep s t = validateStep (calcDataPre s t) t.elapsed t.last_laptime := rfl
      have hv : (calcDataPre s t).validating = m := by rw [hpre.1, h0]
      have hnacc : ¬(0.3 < t.elapsed - (calcDataPre s t).validating ∧
          t.elapsed - (calcDataPre s t).validating ≤ 3 ∧ t.last_laptime > 0) := by
        rw [hv]
        rintro ⟨-, h2, h3⟩
        exact absurd h3 (not_lt.mpr (hll t (List.mem_cons_self t ts) h2))
      have hts : ∀ u ∈ ts, u.lap_stime = (calcDataStep s t).last_lap_stime := by
        intro u hu
        rw [calcDataStep_last_lap_stime, ht]
        exact hnb u (List.mem_cons_of_mem t hu)
      by_cases h3 : t.elapsed - m > 3
      · -- timeout: validation switches off, nothing else changes
        have hrw : calcDataStep s t = { calcDataPre s t with validating := 0 } := by
          rw [hstep, validateStep_eq_timeout _ _ _ (by rw [hv]; exact hm) hnacc (by rw [hv]; exact h3)]
        have hrest := calcDataRun_inactive ts (calcDataStep s t) (by rw [hrw]) hts
        simp only [calcDataRun, List.foldl_cons] at *
        refine ⟨?_, ?_, Or.inr hrest.2.2, fun _ => hrest.2.2, fun _ => hrest.2.2⟩
        · rw [hrest.1, hrw]
          simpa using hpre.2.1
        · rw [hrest.2.1, hrw]
          simpa using hpre.2.2.2.1
      · -- still waiting: state's validation fields unchanged
        have hrw : calcDataStep s t = calcDataPre s t := by
          rw [hstep, validateStep_eq_wait _ _ _ (by rw [hv]; exact hm) hnacc (by rw [hv]; exact h3)]
        have hrec := ih (calcDataStep s t)
          (Or.inl (by rw [hrw, hv]))
          hts
          (fun u hu => hll u (List.mem_cons_of_mem t hu))
        simp only [calcDataRun, List.foldl_cons] at *
        refine ⟨by rw [hrec.1, hrw, hpre.2.1], by rw [hrec.2.1, hrw, hpre.2.2.2.1],
               hrec.2.2.1, ?_, ?_⟩
        · rintro ⟨u, hu, hu3⟩
          rcases List.mem_cons.mp hu with rfl | hu
          · exact absurd hu3 h3
          · exact hrec.2.2.2.1 ⟨u, hu, hu3⟩
        · intro hc
          exact absurd (h0 ▸ hc : m = 0).symm (Ne.symm hm)
    · -- validation already off: the whole run is inactive
      have := calcDataRun_inactive (t :: ts) s h0 hnb
      exact ⟨this.1, this.2.1, Or.inr this.2.2, fun _ => this.2.2, fun _ => this.2.2⟩

/-- Acceptance run (part B of validation gating): with non-decreasing
elapsed times, a tick inside `(0.3, 3]` of the mark carrying a positive
last-lap time promotes the pending curve to reference lap. -/
theorem calcDataRun_accept (ticks : List FuelTick) (s : CalcState) (m : ℚ)
    (hm : m ≠ 0)
    (h0 : s.validating = m)
    (hnb : ∀ t ∈ ticks, t.lap_stime = s.last_lap_stime)
    (hmono : (ticks.map FuelTick.elapsed).Chain' (· ≤ ·))
    (hacc : ∃ t ∈ ticks, 0.3 < t.elapsed - m ∧ t.elapsed - m ≤ 3 ∧ 0 < t.last_laptime) :
    (calcDataRun s ticks).delta_list_last = s.delta_list_temp ∧
    (calcDataRun s ticks).used_last = s.used_last_raw := by
  induction ticks generalizing s with
  | nil =>
    rcases hacc with ⟨t, ht, -⟩
    exact absurd ht (List.not_mem_nil t)
  | cons t ts ih =>
    have ht : t.lap_stime = s.last_lap_stime := hnb t (List.mem_cons_self t ts)
    have hpre := calcDataPre_noBoundary_fields s t ht
    have hstep : calcDataStep s t = validateStep (calcDataPre s t) t.elapsed t.last_laptime := rfl
    have hv : (calcDataPre s t).validating = m := by rw [hpre.1, h0]
    have hts : ∀ u ∈ ts, u.lap_stime = (calcDataStep s t).last_lap_stime := by
      intro u hu
      rw [calcDataStep_last_lap_stime, ht]
      exact hnb u (List.mem_cons_of_mem t hu)
    by_cases hat : 0.3 < t.elapsed - m ∧ t.elapsed - m ≤ 3 ∧ 0 < t.last_laptime
    · -- this tick accepts the pending lap
      have hrw : calcDataStep s t
          = { calcDataPre s t with
                used_last := (calcDataPre s t).used_last_raw,
                delta_list_last := (calcDataPre s t).delta_list_temp,
                delta_list_temp := DELTA_DEFAULT,
                delayed_save := true,
                validating := 0 } := by
        rw [hstep, validateStep_eq_accept _ _ _ (by rw [hv]; exact hm)
          (by rw [hv]; exact ⟨hat.1, hat.2.1, hat.2.2⟩)]
      have hrest := calcDataRun_inactive ts (calcDataStep s t) (by rw [hrw]) hts
      simp only [calcDataRun, List.foldl_cons] at *
      constructor
      · rw [hrest.1, hrw]
        simpa using hpre.2.2.1
      · rw [hrest.2.1, hrw]
        simpa using hpre.2.2.2.2.1
    · -- this tick neither accepts nor (thanks to monotonicity) times out
      rcases hacc with ⟨u, hu, hu1, hu2, hu3⟩
      have huts : u ∈ ts := by
        rcases List.mem_cons.mp hu with rfl | h
        · exact absurd ⟨hu1, hu2, hu3⟩ hat
        · exact h
      -- t precedes u, so t.elapsed ≤ u.elapsed ≤ m + 3
      have hle : t.elapsed ≤ u.elapsed := by
        have hpw := (List.chain'_iff_pairwise.mp hmono)
        simp only [List.map_cons, List.pairwise_cons] at hpw
        exact hpw.1 u.elapsed (List.mem_map_of_mem FuelTick.elapsed huts)
      have hnacc : ¬(0.3 < t.elapsed - (calcDataPre s t).validating ∧
          t.elapsed - (calcDataPre s t).validating ≤ 3 ∧ t.last_laptime > 0) := by
        rw [hv]
        intro hc
        exact hat ⟨hc.1, hc.2.1, hc.2.2⟩
      have hrw : calcDataStep s t = calcDataPre s t := by
        rw [hstep, validateStep_eq_wait _ _ _ (by rw [hv]; exact hm) hnacc
          (by rw [hv]; intro hgt; linarith)]
      have hrec := ih (calcDataStep s t)
        (by rw [hrw, hv])
        hts
        (by
          have := hmono.tail
          simpa using this)
        ⟨u, huts, hu1, hu2, hu3⟩
      simp only [calcDataRun, List.foldl_cons] at *
      exact ⟨by rw [hrec.1, hrw, hpre.2.2.1], by rw [hrec.2, hrw, hpre.2.2.2.2.1]⟩

/-! ## Claims C1, C2, C10 -/

/-- C1: Validation gating of the reference lap.  For a run of `calc_data`
ticks with a pending completed lap (`validating` mark `m ≠ 0` set at the lap
boundary) and no further lap boundary: (a) if every tick within 3 seconds of
the mark reports a data-source last lap time ≤ 0, the reference lap
(`delta_list_last`, `used_last`) is never replaced, and once a tick more
than 3 seconds past the mark occurs the pending validation is switched off
(the pending curve is discarded); (b) if elapsed time is non-decreasing and
some tick lands in `(0.3, 3]` seconds after the mark with a positive last
lap time, the pending curve (`delta_list_temp`, `used_last_raw`) always
becomes the new reference lap. -/
theorem claim_C1_validation_gating :
    ∀ (s : CalcState) (ticks : List FuelTick) (m : ℚ),
      s.validating = m → m ≠ 0 →
      (∀ t ∈ ticks, t.lap_stime = s.last_lap_stime) →
      ((∀ t ∈ ticks, t.elapsed - m ≤ 3 → t.last_laptime ≤ 0) →
        (calcDataRun s ticks).delta_list_last = s.delta_list_last ∧
        (calcDataRun s ticks).used_last = s.used_last ∧
        ((∃ t ∈ ticks, 3 < t.elapsed - m) → (calcDataRun s ticks).validating = 0)) ∧
      ((ticks.map FuelTick.elapsed).Chain' (· ≤ ·) →
        (∃ t ∈ ticks, 0.3 < t.elapsed - m ∧ t.elapsed - m ≤ 3 ∧ 0 < t.last_laptime) →
        (calcDataRun s ticks).delta_list_last = s.delta_list_temp ∧
        (calcDataRun s ticks).used_last = s.used_last_raw) := by
  intro s ticks m hs hm hnb
  constructor
  · intro hll
    have := calcDataRun_reject ticks s m hm (Or.inl hs) hnb hll
    exact ⟨this.1, this.2.1, this.2.2.2.1⟩
  · intro hmono hacc
    exact calcDataRun_accept ticks s m hm hs hnb hmono hacc

/-- A concrete state with a pending lap validation (mark at 5 s), for the
C1 witness. -/
def c1WitnessState : CalcState :=
  { calcDataInit DELTA_DEFAULT 2 0 with validating := 5, last_lap_stime := 20 }

/-- A concrete `calc_data` tick 1 s after the mark reporting a positive
last-lap time, for the C1 witness. -/
def c1TickAccept : FuelTick :=
  { capacity := 100, amount_curr := 50, lap_stime := 20, laptime_curr_raw := 50,
    time_left := 0, in_garage := false, pos_curr := 0, gps_curr := (0, 0, 0),
    laps_done := 1, lap_into := 0, in_pits := false, laptime_pace := 0,
    elapsed := 6, last_laptime := 90 }

/-- A concrete `calc_data` tick 4 s after the mark reporting a zero
last-lap time, for the C1 witness. -/
def c1TickReject : FuelTick :=
  { capacity := 100, amount_curr := 50, lap_stime := 20, laptime_curr_raw := 50,
    time_left := 0, in_garage := false, pos_curr := 0, gps_curr := (0, 0, 0),
    laps_done := 1, lap_into := 0, in_pits := false, laptime_pace := 0,
    elapsed := 9, last_laptime := 0 }

/-- Witness for C1 at concrete inputs: a positive last-lap time 1 second
after the mark promotes the pending curve; a non-positive one never does,
and a tick 4 seconds after the mark discards the pending validation. -/
theorem claim_C1_witness :
    ((calcDataRun c1WitnessState [c1TickAccept]).delta_list_last
        = c1WitnessState.delta_list_temp) ∧
    ((calcDataRun c1WitnessState [c1TickReject]).delta_list_last
        = c1WitnessState.delta_list_last ∧
      (calcDataRun c1WitnessState [c1TickReject]).validating = 0) := by
  constructor
  · exact ((claim_C1_validation_gating c1WitnessState [c1TickAccept] 5 rfl (by norm_num)
      (by intro t ht; rw [List.mem_singleton] at ht; subst ht; rfl)).2
      (by simp)
      ⟨c1TickAccept, List.mem_singleton_self _, by norm_num [c1TickAccept],
       by norm_num [c1TickAccept], by norm_num [c1TickAccept]⟩).1
  · have h := (claim_C1_validation_gating c1WitnessState [c1TickReject] 5 rfl (by norm_num)
      (by intro t ht; rw [List.mem_singleton] at ht; subst ht; rfl)).1
      (by
        intro t ht h3
        rw [List.mem_singleton] at ht
        subst ht
        norm_num [c1TickReject])
    exact ⟨h.1, h.2.2 ⟨c1TickReject, List.mem_singleton_self _, by norm_num [c1TickReject]⟩⟩

/-- C2: Monotonic consumption accumulation.  Starting a lap with
`used_curr = 0`, over any boundary-free tick sequence `used_curr` after N
ticks equals the sum of the positive decrements of the gauge readings, and
any single tick whose reading increases resets `amount_start` and
`amount_last` to the new reading without changing `used_curr`. -/
theorem claim_C2_monotonic_accumulation :
    (∀ (s : CalcState) (ticks : List FuelTick),
      s.used_curr = 0 →
      (∀ t ∈ ticks, t.lap_stime = s.last_lap_stime) →
      (calcDataRun s ticks).used_curr
        = sumDecrements s.amount_last (ticks.map FuelTick.amount_curr)) ∧
    (∀ (s : CalcState) (t : FuelTick),
      t.lap_stime = s.last_lap_stime →
      s.amount_last < t.amount_curr →
      (calcDataStep s t).amount_start = t.amount_curr ∧
      (calcDataStep s t).amount_last = t.amount_curr ∧
      (calcDataStep s t).used_curr = s.used_curr) := by
  constructor
  · intro s ticks h0 hnb
    rw [calcDataRun_used_curr s ticks hnb, h0, zero_add]
  · intro s t hnb hinc
    have hlt : ¬ t.amount_curr < s.amount_last := not_lt.mpr (le_of_lt hinc)
    refine ⟨?_, calcDataStep_amount_last_noBoundary s t hnb, ?_⟩
    · unfold calcDataStep calcDataPre
      rw [lapBoundaryStep_eq_self _ _ _ (by
        simp only [fuelReadingStep_last_lap_stime, tickEntry, hnb]
        intro hc
        exact absurd hc.1 (lt_irrefl _))]
      have : fuelReadingStep (tickEntry s t) t.amount_curr
          = { tickEntry s t with amount_last := t.amount_curr,
                                 amount_start := t.amount_curr } := by
        unfold fuelReadingStep
        rw [if_pos (by simpa [tickEntry] using hinc)]
      rw [this]
      simp [withLastStime, tickEntry]
    · rw [calcDataStep_used_curr_noBoundary s t hnb, if_neg hlt, add_zero]

/-- Witness for C2: readings 50, 47, 49, 45 accumulate `3 + 4 = 7`, and the
increasing tick `47 → 49` resets the baseline without touching the total. -/
theorem claim_C2_witness :
    ((calcDataRun (calcDataInit DELTA_DEFAULT 0 0)
        ([50, 47, 49, 45].map (fun a =>
          { capacity := 100, amount_curr := a, lap_stime := -1, laptime_curr_raw := 50,
            time_left := 0, in_garage := false, pos_curr := 0, gps_curr := (0, 0, 0),
            laps_done := 1, lap_into := 0, in_pits := false, laptime_pace := 0,
            elapsed := 6, last_laptime := 90 }))).used_curr
      = sumDecrements (calcDataInit DELTA_DEFAULT 0 0).amount_last [50, 47, 49, 45]) ∧
    (calcDataStep { calcDataInit DELTA_DEFAULT 0 0 with amount_last := 47, used_curr := 3 }
        { capacity := 100, amount_curr := 49, lap_stime := -1, laptime_curr_raw := 50,
          time_left := 0, in_garage := false, pos_curr := 0, gps_curr := (0, 0, 0),
          laps_done := 1, lap_into := 0, in_pits := false, laptime_pace := 0,
          elapsed := 6, last_laptime := 90 }).amount_start = 49 := by
  constructor
  · have := claim_C2_monotonic_accumulation.1 (calcDataInit DELTA_DEFAULT 0 0)
      ([50, 47, 49, 45].map (fun a =>
          { capacity := 100, amount_curr := a, lap_stime := -1, laptime_curr_raw := 50,
            time_left := 0, in_garage := false, pos_curr := 0, gps_curr := (0, 0, 0),
            laps_done := 1, lap_into := 0, in_pits := false, laptime_pace := 0,
            elapsed := 6, last_laptime := 90 }))
      rfl
      (by
        intro t ht
        simp only [List.mem_map] at ht
        obtain ⟨a, -, rfl⟩ := ht
        rfl)
    rw [this]
    simp
  · exact (claim_C2_monotonic_accumulation.2
      { calcDataInit DELTA_DEFAULT 0 0 with amount_last := 47, used_curr := 3 }
      _ rfl (by norm_num)).1

/-- C10: `telemetry_fuel` clamps the raw tank-capacity reading to at least
1, so every downstream computation receives a positive capacity. -/
theorem claim_C10_capacity_clamped :
    ∀ raw_tank_capacity raw_fuel : ℚ,
      1 ≤ (telemetry_fuel raw_tank_capacity raw_fuel).1 ∧
      0 < (telemetry_fuel raw_tank_capacity raw_fuel).1 ∧
      (raw_tank_capacity ≤ 0 → (telemetry_fuel raw_tank_capacity raw_fuel).1 = 1) := by
  intro c f
  refine ⟨le_max_right c 1, lt_of_lt_of_le one_pos (le_max_right c 1), ?_⟩
  intro hc
  simp only [telemetry_fuel]
  exact max_eq_right (by linarith)

/-- Witness for C10: a negative raw capacity reading is clamped to 1. -/
theorem claim_C10_witness :
    1 ≤ (telemetry_fuel (-5) 2).1 ∧ (telemetry_fuel (-5) 2).1 = 1 :=
  ⟨(claim_C10_capacity_clamped (-5) 2).1,
   (claim_C10_capacity_clamped (-5) 2).2.2 (by norm_num)⟩

/-! ## Claim C5: shape of the completed-lap sample list -/

/-- C5 counterexample tick 1: first sighting of a lap start time. -/
def c5t1 : FuelTick :=
  { capacity := 100, amount_curr := 50, lap_stime := 10, laptime_curr_raw := 50,
    time_left := 0, in_garage := false, pos_curr := 0, gps_curr := (0, 0, 0),
    laps_done := 0, lap_into := 0, in_pits := false, laptime_pace := 0,
    elapsed := 10, last_laptime := 0 }

/-- C5 counterexample tick 2: lap boundary, recording starts. -/
def c5t2 : FuelTick :=
  { capacity := 100, amount_curr := 50, lap_stime := 20, laptime_curr_raw := 1/2,
    time_left := 0, in_garage := false, pos_curr := 0, gps_curr := (0, 0, 0),
    laps_done := 1, lap_into := 0, in_pits := false, laptime_pace := 0,
    elapsed := 20, last_laptime := 0 }

/-- C5 counterexample tick 3: sample recorded at position 100. -/
def c5t3 : FuelTick :=
  { capacity := 100, amount_curr := 49, lap_stime := 20, laptime_curr_raw := 5,
    time_left := 0, in_garage := false, pos_curr := 100, gps_curr := (0, 0, 0),
    laps_done := 1, lap_into := 0, in_pits := false, laptime_pace := 0,
    elapsed := 25, last_laptime := 0 }

/-- C5 counterexample tick 4: the position signal goes backwards to 50. -/
def c5t4 : FuelTick :=
  { capacity := 100, amount_curr := 49, lap_stime := 20, laptime_curr_raw := 6,
    time_left := 0, in_garage := false, pos_curr := 50, gps_curr := (0, 0, 0),
    laps_done := 1, lap_into := 0, in_pits := false, laptime_pace := 0,
    elapsed := 26, last_laptime := 0 }

/-- C5 counterexample tick 5: next lap boundary appends the terminal sample
at `50 + 10 = 60`, below the recorded sample at 100. -/
def c5t5 : FuelTick :=
  { capacity := 100, amount_curr := 49, lap_stime := 30, laptime_curr_raw := 1/2,
    time_left := 0, in_garage := false, pos_curr := 2, gps_curr := (0, 0, 0),
    laps_done := 2, lap_into := 0, in_pits := false, laptime_pace := 0,
    elapsed := 100, last_laptime := 0 }

/-- Counterexample to C5 as stated: when the position signal decreases
mid-lap (tick 4, 100 → 50), the completed-lap sample list appended at the
next boundary is `[(0,0), (100,1), (60,1,10)]` — its positions are *not*
non-decreasing, and the terminal sample position 60 is not
`last recorded sample position + 10 = 110`. -/
theorem claim_C5_counterexample :
    (calcDataRun (calcDataInit DELTA_DEFAULT 0 0)
        [c5t1, c5t2, c5t3, c5t4, c5t5]).delta_list_temp
      = [(0, 0, none), (100, 1, none), (60, 1, some 10)] ∧
    ¬ ((calcDataRun (calcDataInit DELTA_DEFAULT 0 0)
        [c5t1, c5t2, c5t3, c5t4, c5t5]).delta_list_temp.map Prod.fst).Chain' (· ≤ ·) := by
  have h : (calcDataRun (calcDataInit DELTA_DEFAULT 0 0)
      [c5t1, c5t2, c5t3, c5t4, c5t5]).delta_list_temp
      = [(0, 0, none), (100, 1, none), (60, 1, some 10)] := by
    norm_num [calcDataRun, calcDataStep, calcDataPre, fuelReadingStep, lapBoundaryStep,
      posRecordStep, validateStep, desyncFix, desyncPos, desyncCond, tickEntry,
      withLastStime, calcDataInit, DELTA_ZERO, DELTA_DEFAULT, round6, pyRoundHalfEven,
      c5t1, c5t2, c5t3, c5t4, c5t5]
  refine ⟨h, ?_⟩
  rw [h]
  norm_num [List.chain'_cons]

/-- The within-lap curve invariant: the current lap's sample positions form
a non-decreasing chain, every recorded position is at most `round6` of the
last checked position, and the last checked position is non-negative. -/
def curveInv (s : CalcState) : Prop :=
  (s.delta_list_curr.map Prod.fst).Chain' (· ≤ ·) ∧
  (∀ q ∈ s.delta_list_curr.map Prod.fst, q ≤ round6 s.pos_last) ∧
  0 ≤ s.pos_last

theorem curveInv_validateStep (s : CalcState) (e l : ℚ) :
    curveInv (validateStep s e l) ↔ curveInv s := by
  unfold curveInv
  rw [validateStep_delta_list_curr, validateStep_pos_last]

theorem posRecordStep_eq_self (s : CalcState) (p : ℚ)
    (h : ¬(0 ≤ p ∧ p ≠ s.pos_last)) : posRecordStep s p = s := by
  unfold posRecordStep
  rw [if_neg h]

theorem posRecordStep_rec (s : CalcState) (p : ℚ)
    (h : 0 ≤ p ∧ p ≠ s.pos_last) (hr : s.recording ∧ p > s.pos_last) :
    posRecordStep s p
      = { s with delta_list_curr := s.delta_list_curr ++ [(round6 p, round6 s.used_curr, none)],
                 pos_last := p, pos_synced := true } := by
  have hrec : s.recording = true := hr.1
  simp only [posRecordStep]
  rw [if_pos h, if_pos ⟨hrec, hr.2⟩]

theorem posRecordStep_norec (s : CalcState) (p : ℚ)
    (h : 0 ≤ p ∧ p ≠ s.pos_last) (hr : ¬(s.recording = true ∧ p > s.pos_last)) :
    posRecordStep s p = { s with pos_last := p, pos_synced := true } := by
  simp only [posRecordStep]
  rw [if_pos h, if_neg hr]

theorem lapBoundaryStep_eq_fired (s : CalcState) (t : FuelTick) (lc : ℚ)
    (h : t.lap_stime > s.last_lap_stime ∧ s.last_lap_stime ≠ -1) :
    (lapBoundaryStep s t lc).delta_list_curr = [DELTA_ZERO] ∧
    (lapBoundaryStep s t lc).pos_last = t.pos_curr ∧
    (lapBoundaryStep s t lc).used_curr = 0 := by
  unfold lapBoundaryStep
  rw [if_pos h]
  split_ifs <;> exact ⟨rfl, rfl, rfl⟩

theorem lapBoundaryStep_fired_temp (s : CalcState) (t : FuelTick) (lc : ℚ)
    (h : t.lap_stime > s.last_lap_stime ∧ s.last_lap_stime ≠ -1)
    (hlen : 1 < s.delta_list_curr.length) (hpit : s.pit_lap = false) :
    (lapBoundaryStep s t lc).delta_list_temp
      = s.delta_list_curr ++
        [(round6 (s.pos_last + 10), round6 s.used_curr,
          some (round6 (t.lap_stime - s.last_lap_stime)))] ∧
    (lapBoundaryStep s t lc).validating = t.elapsed := by
  unfold lapBoundaryStep
  rw [if_pos h, if_pos ⟨hlen, hpit⟩]
  exact ⟨rfl, rfl⟩

theorem desyncFix_eq_self (s : CalcState) (t : FuelTick) (h : ¬ desyncCond t) :
    desyncFix s t = s := by
  unfold desyncFix
  rw [if_neg h]

theorem desyncPos_eq (t : FuelTick) (h : ¬ desyncCond t) : desyncPos t = t.pos_curr := by
  unfold desyncPos
  rw [if_neg h]

/-- `posRecordStep` preserves the curve invariant whenever the new position
is at least the last checked one. -/
theorem curveInv_posRecordStep (v : CalcState) (p : ℚ)
    (hinv : curveInv v) (hle : v.pos_last ≤ p) (hp0 : 0 ≤ p) :
    curveInv (posRecordStep v p) := by
  by_cases hcond : 0 ≤ p ∧ p ≠ v.pos_last
  · by_cases hrec : v.recording = true ∧ p > v.pos_last
    · rw [posRecordStep_rec v p hcond hrec]
      obtain ⟨hchain, hbound, hpl⟩ := hinv
      refine ⟨?_, ?_, hp0⟩
      · simp only [List.map_append, List.map_cons, List.map_nil]
        rw [List.chain'_append]
        refine ⟨hchain, List.chain'_singleton _, ?_⟩
        intro x hx y hy
        simp only [List.head?_cons, Option.mem_def, Option.some.injEq] at hy
        subst hy
        exact le_trans (hbound x (List.mem_of_getLast?_eq_some hx)) (round6_mono hle)
      · intro q hq
        simp only [List.map_append, List.map_cons, List.map_nil] at hq
        rcases List.mem_append.mp hq with hq | hq
        · exact le_trans (hbound q hq) (round6_mono hle)
        · simp only [List.mem_singleton] at hq
          subst hq
          exact le_refl _
    · rw [posRecordStep_norec v p hcond hrec]
      obtain ⟨hchain, hbound, hpl⟩ := hinv
      refine ⟨hchain, ?_, hp0⟩
      intro q hq
      exact le_trans (hbound q hq) (round6_mono hle)
  · rw [posRecordStep_eq_self v p hcond]
    exact hinv

/-- C5 (amended).  (a) On every tick with a non-negative, non-decreasing
position signal and no desync reset, the within-lap curve invariant --
positions of the current lap's samples are a non-decreasing chain -- is
preserved (also across lap boundaries).  (b) At a lap boundary from a state
satisfying the invariant, with at least two recorded samples and no pit
in/out lap, the sample list appended to `delta_list_temp` is the current
curve plus a synthetic terminal sample at `round6(pos_last + 10)` carrying
`round6` of the lap's total used amount and the lap duration; its positions
are non-decreasing and its last element is that terminal sample.  (The
original claim fails when the position signal decreases mid-lap, and the
terminal position is `round6(pos_last + 10)` for the last *checked*
position, not the last *recorded* sample position.) -/
theorem claim_C5_curve_shape :
    (∀ (s : CalcState) (t : FuelTick),
      curveInv s → 0 ≤ t.pos_curr → s.pos_last ≤ t.pos_curr → ¬ desyncCond t →
      curveInv (calcDataStep s t)) ∧
    (∀ (s : CalcState) (t : FuelTick),
      curveInv s → 0 ≤ t.pos_curr →
      t.lap_stime > s.last_lap_stime → s.last_lap_stime ≠ -1 →
      1 < s.delta_list_curr.length → (s.pit_lap || t.in_pits) = false →
      (calcDataStep s t).delta_list_temp
        = s.delta_list_curr ++
          [(round6 (s.pos_last + 10),
            round6 (s.used_curr +
              (if t.amount_curr < s.amount_last then s.amount_last - t.amount_curr else 0)),
            some (round6 (t.lap_stime - s.last_lap_stime)))] ∧
      ((calcDataStep s t).delta_list_temp.map Prod.fst).Chain' (· ≤ ·) ∧
      (calcDataStep s t).delta_list_temp.getLast?
        = some (round6 (s.pos_last + 10),
            round6 (s.used_curr +
              (if t.amount_curr < s.amount_last then s.amount_last - t.amount_curr else 0)),
            some (round6 (t.lap_stime - s.last_lap_stime)))) := by
  constructor
  · -- (a) invariant preservation
    intro s t hinv hpos hle hnd
    show curveInv (validateStep (calcDataPre s t) t.elapsed t.last_laptime)
    rw [curveInv_validateStep]
    unfold calcDataPre
    rw [desyncFix_eq_self _ _ hnd, desyncPos_eq _ hnd]
    by_cases hb : t.lap_stime > s.last_lap_stime ∧ s.last_lap_stime ≠ -1
    · -- lap boundary: the curve restarts at `[DELTA_ZERO]`
      have hb' : t.lap_stime > (fuelReadingStep (tickEntry s t) t.amount_curr).last_lap_stime
          ∧ (fuelReadingStep (tickEntry s t) t.amount_curr).last_lap_stime ≠ -1 := by
        rw [fuelReadingStep_last_lap_stime]
        simpa [tickEntry] using hb
      obtain ⟨hc, hp, -⟩ := lapBoundaryStep_eq_fired
        (fuelReadingStep (tickEntry s t) t.amount_curr) t (max t.laptime_curr_raw 0) hb'
      apply curveInv_posRecordStep
      · refine ⟨?_, ?_, ?_⟩
        · simp [withLastStime, hc, DELTA_ZERO]
        · intro q hq
          simp [withLastStime, hc, DELTA_ZERO] at hq
          subst hq
          simpa [withLastStime, hp] using round6_nonneg hpos
        · simpa [withLastStime, hp] using hpos
      · simp [withLastStime, hp]
      · exact hpos
    · -- no boundary: the curve and the last position are untouched so far
      rw [lapBoundaryStep_eq_self (fuelReadingStep (tickEntry s t) t.amount_curr) t _ (by
        rw [fuelReadingStep_last_lap_stime]
        simpa [tickEntry] using hb)]
      apply curveInv_posRecordStep
      · refine ⟨?_, ?_, ?_⟩
        · simpa [withLastStime, tickEntry] using hinv.1
        · intro q hq
          simp only [withLastStime, fuelReadingStep_delta_list_curr,
            fuelReadingStep_pos_last] at hq ⊢
          simpa [tickEntry] using hinv.2.1 q (by simpa [tickEntry] using hq)
        · simpa [withLastStime, tickEntry] using hinv.2.2
      · simpa [withLastStime, tickEntry] using hle
      · exact hpos
  · -- (b) the appended completed-lap sample list
    intro s t hinv hpos hb hbne hlen hpit
    have hb' : t.lap_stime > (fuelReadingStep (tickEntry s t) t.amount_curr).last_lap_stime
        ∧ (fuelReadingStep (tickEntry s t) t.amount_curr).last_lap_stime ≠ -1 := by
      rw [fuelReadingStep_last_lap_stime]
      exact ⟨by simpa [tickEntry] using hb, by simpa [tickEntry] using hbne⟩
    obtain ⟨htemp, hval⟩ := lapBoundaryStep_fired_temp
      (fuelReadingStep (tickEntry s t) t.amount_curr) t (max t.laptime_curr_raw 0) hb'
      (by simpa [tickEntry] using hlen)
      (by simpa [tickEntry] using hpit)
    -- value of the appended list, in terms of the pre-tick state
    have htempv : (fuelReadingStep (tickEntry s t) t.amount_curr).delta_list_curr ++
          [(round6 ((fuelReadingStep (tickEntry s t) t.amount_curr).pos_last + 10),
            round6 (fuelReadingStep (tickEntry s t) t.amount_curr).used_curr,
            some (round6 (t.lap_stime -
              (fuelReadingStep (tickEntry s t) t.amount_curr).last_lap_stime)))]
        = s.delta_list_curr ++
          [(round6 (s.pos_last + 10),
            round6 (s.used_curr +
              (if t.amount_curr < s.amount_last then s.amount_last - t.amount_curr else 0)),
            some (round6 (t.lap_stime - s.last_lap_stime)))] := by
      rw [fuelReadingStep_used_curr]
      simp [tickEntry]
    -- `delta_list_temp` survives the rest of the tick
    have hpre_temp : (calcDataPre s t).delta_list_temp
          = s.delta_list_curr ++
            [(round6 (s.pos_last + 10),
              round6 (s.used_curr +
                (if t.amount_curr < s.amount_last then s.amount_last - t.amount_curr else 0)),
              some (round6 (t.lap_stime - s.last_lap_stime)))] := by
      unfold calcDataPre
      rw [posRecordStep_delta_list_temp, desyncFix_delta_list_temp]
      show (lapBoundaryStep _ t _).delta_list_temp = _
      rw [htemp, htempv]
    have hpre_val : (calcDataPre s t).validating = t.elapsed := by
      unfold calcDataPre
      rw [posRecordStep_validating, desyncFix_validating]
      show (lapBoundaryStep _ t _).validating = _
      rw [hval]
    have hfinal : (calcDataStep s t).delta_list_temp = (calcDataPre s t).delta_list_temp := by
      show (validateStep (calcDataPre s t) t.elapsed t.last_laptime).delta_list_temp = _
      by_cases he : t.elapsed = 0
      · rw [validateStep_eq_off _ _ _ (by rw [hpre_val, he])]
      · rw [validateStep_eq_wait _ _ _ (by rw [hpre_val]; exact he)
          (by rw [hpre_val]; rintro ⟨h1, -⟩; norm_num at h1)
          (by rw [hpre_val]; norm_num)]
    rw [hfinal, hpre_temp]
    refine ⟨rfl, ?_, List.getLast?_concat _⟩
    simp only [List.map_append, List.map_cons, List.map_nil]
    rw [List.chain'_append]
    refine ⟨hinv.1, List.chain'_singleton _, ?_⟩
    intro x hx y hy
    simp only [List.head?_cons, Option.mem_def, Option.some.injEq] at hy
    subst hy
    refine le_trans (hinv.2.1 x (List.mem_of_getLast?_eq_some hx)) (round6_mono ?_)
    linarith

/-- A concrete mid-lap state with two recorded samples, for the C5 witness. -/
def c5WitState : CalcState :=
  { calcDataInit DELTA_DEFAULT 0 0 with
      delta_list_curr := [(0, 0, none), (100, 1, none)],
      pos_last := 100, last_lap_stime := 20, used_curr := 1 }

/-- A concrete lap-boundary tick, for the C5 witness. -/
def c5WitTickBoundary : FuelTick :=
  { capacity := 100, amount_curr := 0, lap_stime := 30, laptime_curr_raw := 1/2,
    time_left := 0, in_garage := false, pos_curr := 2, gps_curr := (0, 0, 0),
    laps_done := 2, lap_into := 0, in_pits := false, laptime_pace := 0,
    elapsed := 40, last_laptime := 0 }

/-- A concrete forward-position tick, for the C5 witness. -/
def c5WitTickAdvance : FuelTick :=
  { capacity := 100, amount_curr := 0, lap_stime := 20, laptime_curr_raw := 5,
    time_left := 0, in_garage := false, pos_curr := 150, gps_curr := (0, 0, 0),
    laps_done := 1, lap_into := 0, in_pits := false, laptime_pace := 0,
    elapsed := 26, last_laptime := 0 }

/-- Witness for C5 at concrete inputs: a forward tick preserves the curve
invariant, and the boundary tick appends
`[(0,0), (100,1)] ++ [(110, 1, 10)]`. -/
theorem claim_C5_witness :
    curveInv (calcDataStep c5WitState c5WitTickAdvance) ∧
    (calcDataStep c5WitState c5WitTickBoundary).delta_list_temp
      = [(0, 0, none), (100, 1, none), (110, 1, some 10)] := by
  constructor
  · exact claim_C5_curve_shape.1 c5WitState c5WitTickAdvance
      (by
        refine ⟨?_, ?_, ?_⟩
        · norm_num [c5WitState, calcDataInit, List.chain'_cons]
        · intro q hq
          norm_num [c5WitState, calcDataInit] at hq ⊢
          rcases hq with rfl | rfl <;> norm_num [round6, pyRoundHalfEven]
        · norm_num [c5WitState, calcDataInit])
      (by norm_num [c5WitTickAdvance])
      (by norm_num [c5WitState, calcDataInit, c5WitTickAdvance])
      (by norm_num [desyncCond, c5WitTickAdvance])
  · have h := (claim_C5_curve_shape.2 c5WitState c5WitTickBoundary
      (by
        refine ⟨?_, ?_, ?_⟩
        · norm_num [c5WitState, calcDataInit, List.chain'_cons]
        · intro q hq
          norm_num [c5WitState, calcDataInit] at hq ⊢
          rcases hq with rfl | rfl <;> norm_num [round6, pyRoundHalfEven]
        · norm_num [c5WitState, calcDataInit])
      (by norm_num [c5WitTickBoundary])
      (by norm_num [c5WitState, calcDataInit, c5WitTickBoundary])
      (by norm_num [c5WitState, calcDataInit])
      (by norm_num [c5WitState, calcDataInit])
      (by norm_num [c5WitState, calcDataInit, c5WitTickBoundary])).1
    rw [h]
    norm_num [c5WitState, calcDataInit, c5WitTickBoundary, round6, pyRoundHalfEven]

/-! ## `module_fuel.py`: persistence (`save_delta` / `load_delta`)

The file system is modelled explicitly: opening the file either raises an
exception (missing file, permission denied) or yields the raw CSV rows.
Numeric values round-trip exactly through the CSV layer (Python's float
repr/parse round-trips), so a written numeric row reads back as itself.
A consumption-curve tuple of `calc_data` corresponds to a row of two
(mid-lap) or three (terminal) numeric fields. -/

/-- The Python exceptions relevant to `load_delta`. -/
inductive PyErr
  | fileNotFound
  | permission
  | indexError
  | valueError
  | typeError
deriving DecidableEq

/-- A raw CSV field as seen by `csv.reader(..., quoting=csv.QUOTE_NONNUMERIC)`:
either a numeric field, or one whose float conversion raises `ValueError`. -/
inductive CsvField
  | num (q : ℚ)
  | malformed
deriving DecidableEq

/-- `QUOTE_NONNUMERIC` float conversion of one field. -/
def parseField : CsvField → Except PyErr ℚ
  | .num q => .ok q
  | .malformed => .error .valueError

/-- Reading one CSV row. -/
def parseRow (r : List CsvField) : Except PyErr (List ℚ) := r.mapM parseField

/-- `list(csv.reader(csvfile, quoting=csv.QUOTE_NONNUMERIC))`. -/
def parseRows (rows : List (List CsvField)) : Except PyErr (List (List ℚ)) :=
  rows.mapM parseRow

/-- `save_delta` (lines 279–284): write the rows only when there are at
least 10 of them.  The result is the written file content (`none`: no
write happened). -/
def save_delta (dataset : List (List ℚ)) : Option (List (List ℚ)) :=
  if 10 ≤ dataset.length then some dataset else none

/-- Modelled from the spec: `validator.delta_list` (the `validator` module
is not under `src/`).  Spec: the persisted format is "ordered rows of
`(position: float, cumulativeUsed: float[, lapTime: float on terminal
row])`, numeric-only", and "corrupt entries are filtered out with re-save
of the cleaned list".  The validator keeps exactly the rows of the
persisted numeric shape (two or three fields). -/
def val_delta_list (rows : List (List ℚ)) : List (List ℚ) :=
  rows.filter (fun r => r.length == 2 || r.length == 3)

/-- A Python sequence access: out of range raises `IndexError`
(`lastlist[-1]`, `row[1]`, `row[2]` in `load_delta`). -/
def getOrIndexError {α : Type} : Option α → Except PyErr α
  | some x => Except.ok x
  | none => Except.error PyErr.indexError

/-- The written numeric rows as raw CSV content. -/
def serializeRows (rows : List (List ℚ)) : List (List CsvField) :=
  rows.map (fun r => r.map CsvField.num)

/-- `load_delta` (lines 287–305).  The input is the outcome of
`open` + CSV parse: `.error` for an exception raised by `open`.  The body
mirrors the `try` block: parse, validate, read `used_last` and
`laptime_last` from the terminal row (`lastlist[-1][1]`, `lastlist[-1][2]`;
an out-of-range access raises `IndexError`), and re-save when the validator
dropped rows.  Only `FileNotFoundError`, `IndexError`, `ValueError` and
`TypeError` are caught (producing the `DELTA_DEFAULT` dataset); any other
exception — e.g. `PermissionError` — propagates.  The second result
component is the re-saved cleaned file, if any. -/
def load_delta (file : Except PyErr (List (List CsvField))) :
    Except PyErr ((List (List ℚ) × ℚ × ℚ) × Option (List (List ℚ))) :=
  let body : Except PyErr ((List (List ℚ) × ℚ × ℚ) × Option (List (List ℚ))) := do
    let raw ← file
    let temp_list ← parseRows raw
    let lastlist := val_delta_list temp_list
    let lastrow ← getOrIndexError lastlist.getLast?
    let used_last ← getOrIndexError (lastrow.get? 1)
    let laptime_last ← getOrIndexError (lastrow.get? 2)
    let resave := if temp_list.length ≠ lastlist.length then save_delta lastlist else none
    Except.ok ((lastlist, used_last, laptime_last), resave)
  match body with
  | .ok r => .ok r
  | .error e =>
    if e = .fileNotFound ∨ e = .indexError ∨ e = .valueError ∨ e = .typeError then
      .ok (([[0, 0]], 0, 0), none)
    else .error e

theorem parseRow_serialized (r : List ℚ) : parseRow (r.map CsvField.num) = .ok r := by
  induction r with
  | nil => rfl
  | cons a l ih =>
    simp only [parseRow, List.map_cons, List.mapM_cons] at *
    rw [ih]
    rfl

theorem parseRows_serialized (rows : List (List ℚ)) :
    parseRows (serializeRows rows) = .ok rows := by
  induction rows with
  | nil => rfl
  | cons r l ih =>
    simp only [parseRows, serializeRows, List.map_cons, List.mapM_cons] at *
    rw [parseRow_serialized, ih]
    rfl

/-- A parse failure is always a `ValueError`. -/
theorem parseRows_error (rows : List (List CsvField)) :
    (∃ l, parseRows rows = .ok l) ∨ parseRows rows = .error .valueError := by
  induction rows with
  | nil => exact Or.inl ⟨[], rfl⟩
  | cons r l ih =>
    have hr : (∃ q, parseRow r = .ok q) ∨ parseRow r = .error .valueError := by
      clear ih
      induction r with
      | nil => exact Or.inl ⟨[], rfl⟩
      | cons f fs ihf =>
        cases f with
        | num q =>
          rcases ihf with ⟨qs, hqs⟩ | hqs
          · refine Or.inl ⟨q :: qs, ?_⟩
            simp only [parseRow, List.mapM_cons] at *
            rw [hqs]
            rfl
          · refine Or.inr ?_
            simp only [parseRow, List.mapM_cons] at *
            rw [hqs]
            rfl
        | malformed =>
          refine Or.inr ?_
          simp only [parseRow, List.mapM_cons]
          rfl
    rcases hr with ⟨q, hq⟩ | hq
    · rcases ih with ⟨ls, hls⟩ | hls
      · refine Or.inl ⟨q :: ls, ?_⟩
        simp only [parseRows, List.mapM_cons] at *
        rw [hq, hls]
        rfl
      · refine Or.inr ?_
        simp only [parseRows, List.mapM_cons] at *
        rw [hq, hls]
        rfl
    · refine Or.inr ?_
      simp only [parseRows, List.mapM_cons] at *
      rw [hq]
      rfl

/-- Loading CSV content never propagates an exception: every error the
`try` body can raise on parsed content (`ValueError`, `IndexError`) is in
the caught set. -/
theorem load_delta_ok_of_content (raw : List (List CsvField)) :
    ∃ r, load_delta (Except.ok raw) = Except.ok r := by
  unfold load_delta
  rcases parseRows_error raw with ⟨l, hl⟩ | hl
  · simp only [bind, Except.bind, hl]
    cases hlast : (val_delta_list l).getLast? with
    | none => simp [getOrIndexError]
    | some lastrow =>
      cases hu : lastrow[1]? with
      | none => simp [getOrIndexError, hu]
      | some u =>
        cases hlt : lastrow[2]? with
        | none => simp [getOrIndexError, hu, hlt]
        | some lt => simp [getOrIndexError, hu, hlt]
  · simp only [bind, Except.bind, hl]
    exact ⟨_, rfl⟩

/-- C6: Persistence round-trip.  For every consumption curve of at least 10
rows in the persisted numeric format (rows of two or three numeric fields,
terminal row with a lap time), `save_delta` writes exactly the rows, and
`load_delta` on the written file returns the identical row sequence with
`used_last` and `laptime_last` read from the terminal row (and performs no
re-save). -/
theorem claim_C6_roundtrip :
    ∀ (rows : List (List ℚ)) (lastrow : List ℚ) (u lt : ℚ),
      10 ≤ rows.length →
      (∀ r ∈ rows, r.length = 2 ∨ r.length = 3) →
      rows.getLast? = some lastrow →
      lastrow.get? 1 = some u →
      lastrow.get? 2 = some lt →
      save_delta rows = some rows ∧
      load_delta (Except.ok (serializeRows rows)) = Except.ok ((rows, u, lt), none) := by
  intro rows lastrow u lt h10 hfmt hlast hu hlt
  have hval : val_delta_list rows = rows := by
    unfold val_delta_list
    rw [List.filter_eq_self]
    intro r hr
    rcases hfmt r hr with h | h <;> simp [h]
  refine ⟨by unfold save_delta; rw [if_pos h10], ?_⟩
  unfold load_delta
  rw [List.get?_eq_getElem?] at hu hlt
  simp only [bind, Except.bind, parseRows_serialized, hval, hlast]
  simp [getOrIndexError, hu, hlt]

/-- C7 (amended): a missing file, malformed content (`ValueError` from the
CSV layer) and structural errors are caught inside `load_delta` and produce
the default dataset; the only exception that propagates is one outside the
caught set, such as `PermissionError`. -/
theorem claim_C7_load_fallback :
    (load_delta (Except.error PyErr.fileNotFound)
        = Except.ok (([[0, 0]], 0, 0), none)) ∧
    (∀ raw, parseRows raw = Except.error PyErr.valueError →
      load_delta (Except.ok raw) = Except.ok (([[0, 0]], 0, 0), none)) ∧
    (∀ file e, load_delta file = Except.error e →
      e = PyErr.permission ∧ file = Except.error PyErr.permission) := by
  refine ⟨rfl, ?_, ?_⟩
  · intro raw h
    unfold load_delta
    simp only [bind, Except.bind, h]
    rfl
  · intro file e h
    cases file with
    | ok raw =>
      obtain ⟨r, hr⟩ := load_delta_ok_of_content raw
      rw [hr] at h
      exact absurd h (by simp)
    | error e' =>
      cases e' <;> simp [load_delta, bind, Except.bind] at h ⊢ <;> simp [h.symm]

/-- Counterexample to C7 as stated: a `PermissionError` raised by `open` is
*not* in the caught exception set of `load_delta` and propagates. -/
theorem claim_C7_counterexample :
    load_delta (Except.error PyErr.permission) = Except.error PyErr.permission := rfl

/-- Witness for C7 at concrete inputs: a missing file and a malformed
single-field file both fall back to the default dataset. -/
theorem claim_C7_witness :
    load_delta (Except.error PyErr.fileNotFound) = Except.ok (([[0, 0]], 0, 0), none) ∧
    load_delta (Except.ok [[CsvField.malformed]]) = Except.ok (([[0, 0]], 0, 0), none) := by
  refine ⟨claim_C7_load_fallback.1, ?_⟩
  exact claim_C7_load_fallback.2.1 [[CsvField.malformed]] rfl

/-- A concrete 10-row consumption curve in the persisted format, for the
C6 witness. -/
def c6WitnessRows : List (List ℚ) :=
  [[0, 0], [100, 2], [200, 4], [300, 6], [400, 8], [500, 10], [600, 12],
   [700, 14], [800, 16], [810, 18, 90]]

/-- Witness for C6: a 10-row curve round-trips exactly. -/
theorem claim_C6_witness :
    save_delta c6WitnessRows = some c6WitnessRows ∧
    load_delta (Except.ok (serializeRows c6WitnessRows))
      = Except.ok ((c6WitnessRows, 18, 90), none) :=
  claim_C6_roundtrip c6WitnessRows [810, 18, 90] 18 90
    (by norm_num [c6WitnessRows])
    (by intro r hr; norm_num [c6WitnessRows] at hr;
        rcases hr with rfl|rfl|rfl|rfl|rfl|rfl|rfl|rfl|rfl|rfl <;> norm_num)
    (by norm_num [c6WitnessRows])
    rfl
    rfl

/-! ## `ui/fuel_calculator.py`: the pit-count fixed-point loop

`FuelCalculator.run_calculation` (lines 660–702) iterates the pit-count
estimate to a fixed point.  The `calc.*` helpers it calls live in the
`calculation` module, which is not under `src/`; they are modelled from the
specification below.  The state after the loop (the lines from
`total_runlaps` on) reads but never feeds back into the loop, so the
embedding covers the loop itself. -/

/-- Modelled from the spec: `calculation.total_fuel_needed` (the
`calculation` module is not under `src/`).  Spec §4.3:
"`totalFuelNeeded = lapsLeft × perLapConsumption − currentAmount` (can be
negative, meaning surplus)". -/
def total_fuel_needed (laps_left consumption amount_curr : ℚ) : ℚ :=
  laps_left * consumption - amount_curr

/-- Modelled from the spec: `calculation.time_type_full_laps_remain`.
Spec §4.3 (time-limited races): "estimate full laps remaining by dividing
remaining session time by current-pace lap time, then subtract lap fraction
already completed", rounded up to full laps.  (Lean's rational division is
total with `x / 0 = 0`; the caller guarantees `laptime ≠ 0`.) -/
def time_type_full_laps_remain (lap_into laptime seconds : ℚ) : ℤ :=
  ⌈seconds / laptime - lap_into⌉

/-- Modelled from the spec: `calculation.end_stint_fuel`.  Spec glossary:
"End-of-stint: projection of remaining fuel/energy to the point the tank
would be empty mid-run" — the leftover amount that cannot complete one more
lap, i.e. the remainder of the available amount modulo the per-lap
consumption (Python float `%`), guarded against zero consumption. -/
def end_stint_fuel (amount_curr used_curr consumption : ℚ) : ℚ :=
  if consumption = 0 then 0
  else (amount_curr + used_curr) - consumption * ⌊(amount_curr + used_curr) / consumption⌋

/-- Modelled from the spec: `calculation.end_stint_pit_counts`.  Spec §4.3:
"**End-of-stint** (conservative): `ceil(totalFuelNeeded / (capacity −
endOfStintAmount))`, clamped ≥0".  (Lean's rational division is total with
`x / 0 = 0`.) -/
def end_stint_pit_counts (amount_need capacity_empty : ℚ) : ℚ :=
  max 0 ((⌈amount_need / capacity_empty⌉ : ℤ) : ℚ)

/-- The inputs of `FuelCalculator.run_calculation`.  `is_gallon_fuel` is
`cfg.units["fuel_unit"] == "Gallon" and output_type == "fuel"` (the rounding
branch, line 681). -/
structure RunCalcInput where
  is_gallon_fuel : Bool
  tank_capacity : ℚ
  consumption : ℚ
  fuel_start : ℚ
  total_race_seconds : ℚ
  total_race_laps : ℚ
  total_formation_laps : ℚ
  average_pit_seconds : ℚ
  laptime : ℚ
deriving DecidableEq

/-- The loop-carried variables of `run_calculation`. -/
structure CalcLoopState where
  estimate_pit_counts : ℚ
  minimum_pit_counts : ℤ
  total_race_laps : ℚ
  total_need_full : ℚ
  amount_curr : ℚ
  end_stint : ℚ
  loop_counts : ℕ
deriving DecidableEq

/-- State before the `while` loop (lines 662–664). -/
def runCalcInit (inp : RunCalcInput) : CalcLoopState :=
  { estimate_pit_counts := 0, minimum_pit_counts := 0,
    total_race_laps := inp.total_race_laps, total_need_full := 0,
    amount_curr := 0, end_stint := 0, loop_counts := 10 }

/-- Lines 670–675: recompute the race laps from the current minimum pit
count.  In the lap-type branch the source re-adds the formation laps to the
loop variable each iteration (`total_race_laps = total_formation_laps +
total_race_laps`), reproduced faithfully here. -/
def runCalcRaceLaps (inp : RunCalcInput) (minimum : ℤ) (prev_laps : ℚ) : ℚ :=
  if inp.total_race_seconds ≠ 0 then
    inp.total_formation_laps +
      (time_type_full_laps_remain 0 inp.laptime
        (inp.total_race_seconds - (minimum : ℚ) * inp.average_pit_seconds) : ℚ)
  else inp.total_formation_laps + prev_laps

/-- Lines 680–684: round the fractional fuel need up (to 0.1 for Gallon
fuel, to 1 otherwise). -/
def runCalcNeedFull (inp : RunCalcInput) (total_need_frac : ℚ) : ℚ :=
  if inp.is_gallon_fuel then ((⌈total_need_frac * 10⌉ : ℤ) : ℚ) / 10
  else ((⌈total_need_frac⌉ : ℤ) : ℚ)

/-- Lines 686–692: the new pit-count estimate from the rounded fuel need. -/
def runCalcEstimate (inp : RunCalcInput) (total_need_full : ℚ) : ℚ :=
  end_stint_pit_counts (total_need_full - inp.tank_capacity)
    (inp.tank_capacity -
      end_stint_fuel (min total_need_full inp.tank_capacity) 0 inp.consumption)

/-- One execution of the loop body (lines 669–698), without the `break`
decision: recompute race laps, fuel needed, the new pit estimate, decrement
`loop_counts`, and re-arm `loop_counts = 1` when the rounded-up minimum
undershoots the new estimate (lines 696–698). -/
def runCalcBodyState (inp : RunCalcInput) (s : CalcLoopState) : CalcLoopState :=
  let minimum : ℤ := ⌈s.estimate_pit_counts⌉
  let total_race_laps := runCalcRaceLaps inp minimum s.total_race_laps
  let total_need_full := runCalcNeedFull inp (total_fuel_needed total_race_laps inp.consumption 0)
  let estimate := runCalcEstimate inp total_need_full
  { estimate_pit_counts := estimate, minimum_pit_counts := minimum,
    total_race_laps := total_race_laps, total_need_full := total_need_full,
    amount_curr := min total_need_full inp.tank_capacity,
    end_stint := end_stint_fuel (min total_need_full inp.tank_capacity) 0 inp.consumption,
    loop_counts :=
      if (minimum : ℚ) < estimate ∧ minimum = ⌊estimate⌋ then 1 else s.loop_counts - 1 }

/-- The loop body followed by the `break` check (lines 700–701):
`Sum.inr` = the loop breaks with this state, `Sum.inl` = it continues. -/
def runCalcBody (inp : RunCalcInput) (s : CalcLoopState) :
    CalcLoopState ⊕ CalcLoopState :=
  let s' := runCalcBodyState inp s
  if s'.minimum_pit_counts = ⌈s'.estimate_pit_counts⌉ then Sum.inr s' else Sum.inl s'

/-- `while loop_counts:` with an explicit step budget; `none` means the
budget was exhausted before the loop exited. -/
def runCalcIter (inp : RunCalcInput) : ℕ → CalcLoopState → Option CalcLoopState
  | 0, _ => none
  | fuel + 1, s =>
    if s.loop_counts = 0 then some s
    else
      match runCalcBody inp s with
      | .inr s' => some s'
      | .inl s' => runCalcIter inp fuel s'

/-- The whole loop of `run_calculation`: a budget of 11 steps suffices for
the at-most-10 body executions plus the final `loop_counts == 0` check. -/
def run_calculation_loop (inp : RunCalcInput) : Option CalcLoopState :=
  runCalcIter inp 11 (runCalcInit inp)

/-- `runCalcEstimate` is always a non-negative integer cast to `ℚ`. -/
theorem runCalcEstimate_int (inp : RunCalcInput) (x : ℚ) :
    ∃ k : ℤ, 0 ≤ k ∧ runCalcEstimate inp x = (k : ℚ) := by
  unfold runCalcEstimate end_stint_pit_counts
  refine ⟨max 0 ⌈(x - inp.tank_capacity) /
    (inp.tank_capacity - end_stint_fuel (min x inp.tank_capacity) 0 inp.consumption)⌉,
    le_max_left _ _, ?_⟩
  push_cast
  rfl

/-- The re-arm branch (lines 696–698) can never fire: the new estimate is an
integer, so `minimum == floor(estimate)` and `minimum < estimate` are
incompatible.  Hence `loop_counts` strictly decreases. -/
theorem runCalcBodyState_loop_counts (inp : RunCalcInput) (s : CalcLoopState) :
    (runCalcBodyState inp s).loop_counts = s.loop_counts - 1 := by
  show (if ((⌈s.estimate_pit_counts⌉ : ℤ) : ℚ) <
        runCalcEstimate inp (runCalcNeedFull inp (total_fuel_needed
          (runCalcRaceLaps inp ⌈s.estimate_pit_counts⌉ s.total_race_laps) inp.consumption 0)) ∧
        ⌈s.estimate_pit_counts⌉ =
          ⌊runCalcEstimate inp (runCalcNeedFull inp (total_fuel_needed
            (runCalcRaceLaps inp ⌈s.estimate_pit_counts⌉ s.total_race_laps) inp.consumption 0))⌋
      then 1 else s.loop_counts - 1) = s.loop_counts - 1
  rw [if_neg]
  rintro ⟨hlt, heq⟩
  obtain ⟨k, hk0, hk⟩ := runCalcEstimate_int inp (runCalcNeedFull inp (total_fuel_needed
    (runCalcRaceLaps inp ⌈s.estimate_pit_counts⌉ s.total_race_laps) inp.consumption 0))
  rw [hk] at hlt heq
  rw [Int.floor_intCast] at heq
  rw [heq] at hlt
  exact absurd hlt (lt_irrefl _)

/-- With a step budget exceeding `loop_counts`, the loop always exits. -/
theorem runCalcIter_isSome (inp : RunCalcInput) :
    ∀ (fuel : ℕ) (s : CalcLoopState), s.loop_counts < fuel →
      (runCalcIter inp fuel s).isSome := by
  intro fuel
  induction fuel with
  | zero => intro s h; omega
  | succ n ih =>
    intro s h
    unfold runCalcIter
    by_cases h0 : s.loop_counts = 0
    · rw [if_pos h0]
      rfl
    · rw [if_neg h0]
      simp only [runCalcBody]
      split_ifs with hbr
      · rfl
      · apply ih
        rw [runCalcBodyState_loop_counts]
        omega

/-- C8: the pit-count fixed-point loop of `run_calculation` terminates for
every input within at most 10 body executions (a step budget of 11 — ten
body runs plus the final `loop_counts == 0` test — always suffices), and it
breaks exactly when the newly computed estimate rounds up to the previous
iteration's minimum pit count. -/
theorem claim_C8_pit_loop_bounded :
    (∀ inp : RunCalcInput, (run_calculation_loop inp).isSome) ∧
    (∀ (inp : RunCalcInput) (fuel : ℕ) (s : CalcLoopState),
      s.loop_counts < fuel → (runCalcIter inp fuel s).isSome) ∧
    (∀ (inp : RunCalcInput) (s : CalcLoopState),
      runCalcBody inp s = Sum.inr (runCalcBodyState inp s) ↔
        ⌈(runCalcBodyState inp s).estimate_pit_counts⌉ = ⌈s.estimate_pit_counts⌉) := by
  refine ⟨?_, fun inp => runCalcIter_isSome inp, ?_⟩
  · intro inp
    exact runCalcIter_isSome inp 11 (runCalcInit inp) (by show (10 : ℕ) < 11; norm_num)
  · intro inp s
    simp only [runCalcBody]
    have hmin : (runCalcBodyState inp s).minimum_pit_counts = ⌈s.estimate_pit_counts⌉ := rfl
    constructor
    · intro h
      by_cases hc : (runCalcBodyState inp s).minimum_pit_counts
          = ⌈(runCalcBodyState inp s).estimate_pit_counts⌉
      · rw [← hc]
        exact hmin
      · rw [if_neg hc] at h
        exact absurd h (by simp)
    · intro h
      rw [if_pos (by rw [hmin, h])]

/-- A concrete lap-type race input for the C8 witness. -/
def c8WitnessInput : RunCalcInput :=
  { is_gallon_fuel := false, tank_capacity := 100, consumption := 3,
    fuel_start := 100, total_race_seconds := 0, total_race_laps := 50,
    total_formation_laps := 1, average_pit_seconds := 60, laptime := 90 }

/-- Witness for C8: the loop exits on a concrete lap-type race input, with
the explicit step budget discharged concretely. -/
theorem claim_C8_witness :
    (run_calculation_loop c8WitnessInput).isSome ∧
    (runCalcIter c8WitnessInput 11 (runCalcInit c8WitnessInput)).isSome :=
  ⟨claim_C8_pit_loop_bounded.1 c8WitnessInput,
   claim_C8_pit_loop_bounded.2.1 c8WitnessInput 11 (runCalcInit c8WitnessInput)
     (by norm_num [runCalcInit])⟩

/-! ## `module_relative.py`: the relative window -/

/-- `max_relative_vehicles` (lines 318–324): clamp the configured
additional slots into `[0, 60]` and return
`(min_veh + front + behind, front, behind)` with `min_veh = 7`. -/
def max_relative_vehicles (add_front add_behind : ℤ) (min_veh : ℕ := 7) : ℕ × ℕ × ℕ :=
  let f := (min (max add_front 0) 60).toNat
  let b := (min (max add_behind 0) 60).toNat
  (min_veh + f + b, f, b)

/-- `create_relative_index` (lines 130–158).  `rel_dist_list` is the
reverse-sorted `(relative distance, vehicle index)` list; the result is a
list of vehicle indices with `-1` for empty slots. -/
def create_relative_index (rel_dist_list : List (ℚ × ℕ)) (plr_index : ℕ)
    (max_rel_veh add_front add_behind : ℕ) : List ℤ :=
  if rel_dist_list.isEmpty then []
  else
    -- Extract vehicle index to create new sorted vehicle list
    let sorted_veh_list : List ℤ := rel_dist_list.map (fun d => (d.2 : ℤ))
    -- Locate player index position in list
    let plr_pos : ℕ :=
      if (plr_index : ℤ) ∈ sorted_veh_list then sorted_veh_list.indexOf (plr_index : ℤ)
      else 0
    -- Append with -1 if less than max number of vehicles
    let num_diff : ℤ := (max_rel_veh : ℤ) - sorted_veh_list.length
    let padded : List ℤ :=
      if 0 < num_diff then sorted_veh_list ++ List.replicate num_diff.toNat (-1)
      else sorted_veh_list
    -- Slice: max number of front players -> player index position
    let front_cut := pySlice padded (max ((plr_pos : ℤ) - 3 - add_front) 0) plr_pos
    -- Missing front players are located at the end of list
    let front_miss : ℤ := 3 + (add_front : ℤ) - front_cut.length
    let front_list :=
      pySlice padded ((padded.length : ℤ) - front_miss) padded.length ++ front_cut
    -- Slice: player index position -> max number of behind players
    let behind_cut := pySlice padded (plr_pos : ℤ) ((plr_pos : ℤ) + 4 + add_behind)
    -- Missing behind players are located at the beginning of list
    let behind_miss : ℤ := 4 + (add_behind : ℤ) - behind_cut.length
    let behind_list := behind_cut ++ pySlice padded 0 behind_miss
    front_list ++ behind_list

theorem pySliceIdx_nonneg (n : ℕ) (i : ℤ) (h : 0 ≤ i) :
    pySliceIdx n i = min i.toNat n := by
  unfold pySliceIdx
  rw [if_neg (not_lt.mpr h)]

theorem mem_pySlice {α : Type} {x : α} {l : List α} {i j : ℤ}
    (h : x ∈ pySlice l i j) : x ∈ l := by
  unfold pySlice at h
  exact List.mem_of_mem_take (List.mem_of_mem_drop h)

/-- Counterexample to C3 as stated: on an empty relative-distance list
`create_relative_index` returns the empty list, not a 7-slot window. -/
theorem claim_C3_counterexample :
    (create_relative_index [] 0 (max_relative_vehicles 0 0).1
        (max_relative_vehicles 0 0).2.1 (max_relative_vehicles 0 0).2.2).length
      ≠ 7 + (max_relative_vehicles 0 0).2.1 + (max_relative_vehicles 0 0).2.2 := by
  decide

/-- Length of the assembled window: wrap-around front part + front cut +
behind cut + wrap-around behind part. -/
theorem window_length (padded : List ℤ) (plr_pos f b : ℕ)
    (hp : plr_pos < padded.length) (hM : 7 + f + b ≤ padded.length) :
    (pySlice padded ((padded.length : ℤ) -
        (3 + (f : ℤ) - (pySlice padded (max ((plr_pos : ℤ) - 3 - f) 0) plr_pos).length))
        padded.length
      ++ pySlice padded (max ((plr_pos : ℤ) - 3 - f) 0) plr_pos
      ++ (pySlice padded (plr_pos : ℤ) ((plr_pos : ℤ) + 4 + b)
      ++ pySlice padded 0
          (4 + (b : ℤ) - (pySlice padded (plr_pos : ℤ) ((plr_pos : ℤ) + 4 + b)).length))).length
      = 7 + f + b := by
  have h1 : (pySlice padded (max ((plr_pos : ℤ) - 3 - f) 0) plr_pos).length
      = min plr_pos (3 + f) := by
    rw [pySlice_length, pySliceIdx_nonneg _ _ (by omega),
        pySliceIdx_nonneg _ _ (le_max_right _ 0)]
    omega
  have h2 : (pySlice padded (plr_pos : ℤ) ((plr_pos : ℤ) + 4 + b)).length
      = min (4 + b) (padded.length - plr_pos) := by
    rw [pySlice_length, pySliceIdx_nonneg _ _ (by omega), pySliceIdx_nonneg _ _ (by omega)]
    omega
  simp only [List.length_append]
  rw [h1, h2,
      pySlice_length, pySliceIdx_nonneg _ _ (by omega), pySliceIdx_nonneg _ _ (by omega),
      pySlice_length, pySliceIdx_nonneg _ _ (by omega), pySliceIdx_nonneg _ _ (by omega)]
  omega

/-- C3 (amended): for every clamped configuration and every *non-empty*
relative-distance list the window has length exactly `7 + front + behind`,
and every slot holds either a field vehicle index or the sentinel `-1`;
for an empty field the function returns the empty list instead. -/
theorem claim_C3_relative_window_length :
    ∀ (rel_dist_list : List (ℚ × ℕ)) (plr_index : ℕ) (add_front add_behind : ℤ),
      rel_dist_list ≠ [] →
      (create_relative_index rel_dist_list plr_index
          (max_relative_vehicles add_front add_behind).1
          (max_relative_vehicles add_front add_behind).2.1
          (max_relative_vehicles add_front add_behind).2.2).length
        = 7 + (max_relative_vehicles add_front add_behind).2.1
            + (max_relative_vehicles add_front add_behind).2.2 ∧
      (∀ x ∈ create_relative_index rel_dist_list plr_index
          (max_relative_vehicles add_front add_behind).1
          (max_relative_vehicles add_front add_behind).2.1
          (max_relative_vehicles add_front add_behind).2.2,
        x = -1 ∨ ∃ d ∈ rel_dist_list, x = (d.2 : ℤ)) := by
  intro l p af ab hne
  obtain ⟨M, f, b, hMfb⟩ :
      ∃ M f b, max_relative_vehicles af ab = (M, f, b) := ⟨_, _, _, rfl⟩
  have hM : M = 7 + f + b := by
    have h1 := congrArg Prod.fst hMfb
    have hf := congrArg (fun x => x.2.1) hMfb
    have hb := congrArg (fun x => x.2.2) hMfb
    simp [max_relative_vehicles] at h1 hf hb
    omega
  rw [hMfb]
  simp only
  unfold create_relative_index
  rw [if_neg (by simpa [List.isEmpty_iff] using hne)]
  simp only []
  have hn0 : 0 < (l.map (fun d => ((d.2 : ℤ)))).length := by
    simpa using List.length_pos.mpr hne
  -- properties of the player's position and the padded list
  have hpp_lt : (if (p : ℤ) ∈ l.map (fun d => ((d.2 : ℤ))) then
      (l.map (fun d => ((d.2 : ℤ)))).indexOf (p : ℤ) else 0)
      < (l.map (fun d => ((d.2 : ℤ)))).length := by
    split_ifs with hmem
    · exact List.indexOf_lt_length.mpr hmem
    · exact hn0
  have hpadlen : (if 0 < (M : ℤ) - (l.map (fun d => ((d.2 : ℤ)))).length then
        l.map (fun d => ((d.2 : ℤ))) ++
          List.replicate ((M : ℤ) - (l.map (fun d => ((d.2 : ℤ)))).length).toNat (-1)
      else l.map (fun d => ((d.2 : ℤ)))).length
      = max (l.map (fun d => ((d.2 : ℤ)))).length M := by
    split_ifs with hc
    · rw [List.length_append, List.length_replicate]
      omega
    · omega
  have hpad_mem : ∀ x ∈ (if 0 < (M : ℤ) - (l.map (fun d => ((d.2 : ℤ)))).length then
        l.map (fun d => ((d.2 : ℤ))) ++
          List.replicate ((M : ℤ) - (l.map (fun d => ((d.2 : ℤ)))).length).toNat (-1)
      else l.map (fun d => ((d.2 : ℤ)))),
      x = -1 ∨ ∃ d ∈ l, x = (d.2 : ℤ) := by
    intro x hx
    have hsvl_case : x ∈ l.map (fun d => ((d.2 : ℤ))) →
        x = -1 ∨ ∃ d ∈ l, x = (d.2 : ℤ) := by
      intro hxs
      obtain ⟨d, hd, rfl⟩ := List.mem_map.mp hxs
      exact Or.inr ⟨d, hd, rfl⟩
    split_ifs at hx with hc
    · rcases List.mem_append.mp hx with hx | hx
      · exact hsvl_case hx
      · exact Or.inl (List.eq_of_mem_replicate hx)
    · exact hsvl_case hx
  constructor
  · exact window_length _ _ f b (by omega) (by omega)
  · intro x hx
    simp only [List.mem_append] at hx
    rcases hx with (hx | hx) | hx | hx
    · exact hpad_mem x (mem_pySlice hx)
    · exact hpad_mem x (mem_pySlice hx)
    · exact hpad_mem x (mem_pySlice hx)
    · exact hpad_mem x (mem_pySlice hx)

/-- Witness for C3: a single-vehicle field with no extra slots yields a
7-slot window. -/
theorem claim_C3_witness :
    (create_relative_index [((0 : ℚ), 0)] 0 (max_relative_vehicles 0 0).1
        (max_relative_vehicles 0 0).2.1 (max_relative_vehicles 0 0).2.2).length
      = 7 + (max_relative_vehicles 0 0).2.1 + (max_relative_vehicles 0 0).2.2 :=
  (claim_C3_relative_window_length [((0 : ℚ), 0)] 0 0 0 (by norm_num)).1

/-! ## `module_relative.py`: the standings pipeline

Per-vehicle API reads are bundled in `VehData`; a vehicle's index is its
position in the list (`range(veh_total)`).  Python sorts tuples
lexicographically; we realise each comparison as the (decidable) `≤` of the
corresponding `Lex` product.  Class-name strings are modelled as `ℕ`
identifiers (only equality and some fixed total order on them are ever
used). -/

/-- The per-vehicle API reads used by the standings builder. -/
structure VehData where
  /-- `api.read.vehicle.class_name(index)` -/
  class_name : ℕ
  /-- `api.read.vehicle.place(index)` -/
  place : ℤ
  /-- `api.read.timing.best_laptime(index)` -/
  laptime_best : ℚ
deriving DecidableEq

/-- A tuple yielded by `get_vehicle_class_data` (lines 116–127). -/
structure RawVeh where
  class_name : ℕ
  position : ℤ
  index : ℕ
  laptime_best : ℚ
deriving DecidableEq

/-- `get_vehicle_class_data` (lines 116–127): substitute 99999 for a
non-positive best lap time. -/
def get_vehicle_class_data (vehs : List VehData) : List RawVeh :=
  vehs.enum.map (fun iv : ℕ × VehData =>
    ({ class_name := iv.2.class_name, position := iv.2.place, index := iv.1,
       laptime_best := if iv.2.laptime_best > 0 then iv.2.laptime_best else 99999 } : RawVeh))

/-- A tuple yielded by `create_position_in_class` (lines 226–234). -/
structure ClassEntry where
  /-- 0: player index -/
  index : ℕ
  /-- 1: position in class -/
  position_in_class : ℕ
  /-- 2: class name -/
  class_name : ℕ
  /-- 3: session best lap time -/
  laptime_session_best : ℚ
  /-- 4: class best lap time -/
  laptime_class_best : ℚ
  /-- 5: player index ahead -/
  index_ahead : ℤ
  /-- 6: player index behind -/
  index_behind : ℤ
deriving DecidableEq

/-- Python's tuple `≤` on `raw_veh_class` 4-tuples
(`(class_name, position, index, laptime_best)`), used by `.sort()`. -/
def rawVehLe (a b : RawVeh) : Bool :=
  decide (toLex (a.class_name, toLex (a.position, toLex (a.index, a.laptime_best)))
    ≤ toLex (b.class_name, toLex (b.position, toLex (b.index, b.laptime_best))))

/-- Python's tuple `≤` on `class_pos_list` 7-tuples, used by `sorted(...)`;
the leading component is the vehicle index. -/
def classEntryLe (a b : ClassEntry) : Bool :=
  decide (toLex (a.index, toLex (a.position_in_class, toLex (a.class_name,
      toLex (a.laptime_session_best, toLex (a.laptime_class_best,
        toLex (a.index_ahead, a.index_behind))))))
    ≤ toLex (b.index, toLex (b.position_in_class, toLex (b.class_name,
      toLex (b.laptime_session_best, toLex (b.laptime_class_best,
        toLex (b.index_ahead, b.index_behind)))))))

/-- The key `itemgetter(2, 4, 1)` of `create_standings_index`
(class name, class best lap time, class position). -/
def classKeyLe (a b : ClassEntry) : Bool :=
  decide (toLex (a.class_name, toLex (a.laptime_class_best, a.position_in_class))
    ≤ toLex (b.class_name, toLex (b.laptime_class_best, b.position_in_class)))

/-- Python's tuple `≤` on `(place, index)` pairs, used by
`sorted(zip(...))` in `create_class_position`. -/
def pairLe (a b : ℤ × ℕ) : Bool :=
  decide (toLex a ≤ toLex b)

/-- `sort_class_collection` (lines 356–358): sort key is the class best
lap time of the block's first entry (blocks are never empty). -/
def sortClassCollectionKey (c : List ClassEntry) : ℚ :=
  match c with
  | [] => 0
  | e :: _ => e.laptime_class_best

/-- The comparison used to sort the class collection. -/
def collectionLe (a b : List ClassEntry) : Bool :=
  decide (sortClassCollectionKey a ≤ sortClassCollectionKey b)

/-- Modelled from the spec: `calculation.session_best_laptime` (the
`calculation` module is not under `src/`).  Spec §4.5: "tracking best lap
time per class and per session" — the minimum over the column-3 best lap
times (99999 placeholders included). -/
def session_best_laptime (l : List RawVeh) : ℚ :=
  l.foldl (fun m v => min m v.laptime_best) 99999

/-- The loop body of `create_position_in_class` (lines 209–235), carrying
the loop state (`initial_class`, `position_in_class`,
`laptime_class_best`, `player_index_ahead`); the look-ahead
`sorted_veh_class[idx + 1]` becomes a match on the list tail. -/
def positionInClassGo (sb : ℚ) (initial_class : ℕ) (pos : ℕ) (best : ℚ) (ahead : ℤ) :
    List RawVeh → List ClassEntry
  | [] => []
  | v :: rest =>
    let pos1 := if v.class_name = initial_class then pos + 1 else 1
    let best1 := if pos1 = 1 then v.laptime_best else best
    let ahead1 : ℤ := if pos1 = 1 then -1 else ahead
    let behind : ℤ :=
      match rest with
      | [] => -1
      | v2 :: _ => if v2.class_name = v.class_name then (v2.index : ℤ) else -1
    { index := v.index, position_in_class := pos1, class_name := v.class_name,
      laptime_session_best := sb, laptime_class_best := best1,
      index_ahead := ahead1, index_behind := behind } ::
      positionInClassGo sb v.class_name pos1 best1 (v.index : ℤ) rest

/-- `create_position_in_class` (lines 199–235).  Python reads
`sorted_veh_class[0][0]` before the loop; on an empty list that raises
`IndexError` — the callers guarantee at least one vehicle, and the
embedding returns `[]` there. -/
def create_position_in_class (sorted_veh_class : List RawVeh) : List ClassEntry :=
  match sorted_veh_class with
  | [] => []
  | v0 :: _ =>
    positionInClassGo (session_best_laptime sorted_veh_class) v0.class_name 0 99999 (-1)
      sorted_veh_class

/-- The inner loop of `split_class_list`: collect the current run of equal
class names (accumulator reversed), emit it when the name changes. -/
def splitClassRun (name : ℕ) (acc : List ClassEntry) :
    List ClassEntry → List (List ClassEntry)
  | [] => [acc.reverse]
  | v :: rest =>
    if v.class_name = name then splitClassRun name (v :: acc) rest
    else acc.reverse :: splitClassRun v.class_name [v] rest

/-- `split_class_list` (lines 301–315): split the (class-name-sorted) list
into maximal runs of equal class name.  Python reads `class_list[0][2]`
first, so an empty list raises `IndexError`; the callers guarantee
non-emptiness and the embedding returns `[]` there. -/
def split_class_list : List ClassEntry → List (List ClassEntry)
  | [] => []
  | v :: rest => splitClassRun v.class_name [v] rest

/-- `ALL_PLACES = list(range(1, 129))` (line 34). -/
def ALL_PLACES : List ℤ := (List.range' 1 128).map (fun k : ℕ => (k : ℤ))

/-- `create_reference_place` (lines 267–287).  Python ints are `ℤ` and
`//` is floored division (`Int.fdiv`). -/
def create_reference_place (min_top_veh : ℕ) (veh_total : ℕ) (plr_place : ℤ)
    (veh_limit : ℤ) : List ℤ :=
  if (veh_total : ℤ) ≤ veh_limit then pySlice ALL_PLACES 0 veh_total
  else if plr_place ≤ (min_top_veh : ℤ) then pySlice ALL_PLACES 0 veh_limit
  else
    let max_cut_range := veh_limit - min_top_veh
    -- Number of rear slots (floor divide, excluding the player slot)
    let rear_cut_count := (max_cut_range - 1).fdiv 2
    let front_cut_count := max_cut_range - rear_cut_count
    let front_cut_raw0 := plr_place - front_cut_count
    let front_cut_raw := if front_cut_raw0 < (min_top_veh : ℤ) then (min_top_veh : ℤ)
      else front_cut_raw0
    let rear_cut_max0 := front_cut_raw + max_cut_range
    let rear_cut_max := if rear_cut_max0 > (veh_total : ℤ) then (veh_total : ℤ)
      else rear_cut_max0
    let front_cut_max := rear_cut_max - max_cut_range
    pySlice ALL_PLACES 0 min_top_veh ++ pySlice ALL_PLACES front_cut_max rear_cut_max

/-- `player_index_from_place_reference` (lines 290–298): map each reference
place to its vehicle index, stop at the first out-of-range place, and
always yield a final `-1`. -/
def player_index_from_place_reference : List ℤ → List (ℤ × ℕ) → List ℤ
  | [], _ => [-1]
  | r :: rest, place_index_list =>
    if 0 < r ∧ r ≤ (place_index_list.length : ℤ) then
      ((place_index_list.getD (r - 1).toNat (0, 0)).2 : ℤ) ::
        player_index_from_place_reference rest place_index_list
    else [-1]

/-- `calc_standings_index` (lines 259–264). -/
def calc_standings_index (min_top_veh : ℕ) (veh_total : ℕ) (veh_limit : ℤ)
    (plr_place : ℤ) (place_index_list : List (ℤ × ℕ)) : List ℤ :=
  player_index_from_place_reference
    (create_reference_place min_top_veh veh_total plr_place veh_limit)
    place_index_list

/-- The per-class body of `create_class_standings_index` (lines 241–256):
`class_split` is the transposed block, `place_index_list` the
`(class position, index)` pairs, `veh_total` the last class position. -/
def class_standings_for (min_top_veh : ℕ) (plr_index : ℕ)
    (veh_limit_other veh_limit_player : ℤ) (class_list : List ClassEntry) : List ℤ :=
  let place_index_list := class_list.map (fun e => ((e.position_in_class : ℤ), e.index))
  let veh_total : ℕ :=
    match (class_list.map ClassEntry.position_in_class).getLast? with
    | some m => m
    | none => 0
  if plr_index ∈ class_list.map ClassEntry.index then
    let local_index := (class_list.map ClassEntry.index).indexOf plr_index
    let plr_place : ℤ := ((class_list.map ClassEntry.position_in_class).getD local_index 0 : ℕ)
    calc_standings_index min_top_veh veh_total veh_limit_player plr_place place_index_list
  else
    calc_standings_index min_top_veh veh_total veh_limit_other 0 place_index_list

/-- `create_class_position` (lines 161–172): returns
`(class_pos_list, place_index_list, is_multi_class)`. -/
def create_class_position (vehs : List VehData) :
    List ClassEntry × List (ℤ × ℕ) × Bool :=
  let raw_veh_class := get_vehicle_class_data vehs
  -- Multi-class check: `len(set(class names)) > 1`
  let is_multi_class : Bool := decide (1 < (raw_veh_class.map RawVeh.class_name).dedup.length)
  -- Create overall vehicle place, player index list
  let place_index_list :=
    List.mergeSort (raw_veh_class.map (fun v => (v.position, v.index))) pairLe
  -- Sort by vehicle class, then create class position list
  let sorted_raw := List.mergeSort raw_veh_class rawVehLe
  let class_pos_list :=
    List.mergeSort (create_position_in_class sorted_raw) classEntryLe
  (class_pos_list, place_index_list, is_multi_class)

/-- `create_standings_index` (lines 175–196). -/
def create_standings_index (min_top_veh : ℕ) (veh_limit : ℤ × ℤ × ℤ)
    (veh_total : ℕ) (plr_index : ℕ) (plr_place : ℤ)
    (class_pos_list : List ClassEntry) (place_index_list : List (ℤ × ℕ))
    (is_multi_class : Bool) : List ℤ :=
  if is_multi_class then
    let sorted_class_pos_list := List.mergeSort class_pos_list classKeyLe
    let class_collection :=
      List.mergeSort (split_class_list sorted_class_pos_list) collectionLe
    (class_collection.map
      (class_standings_for min_top_veh plr_index veh_limit.2.1 veh_limit.2.2)).join
  else
    calc_standings_index min_top_veh veh_total veh_limit.1 plr_place place_index_list

/-- `min_top_vehicles_in_class` (lines 327–333): clamp into `[1, 5]`. -/
def min_top_vehicles_in_class (min_top_veh : ℤ) : ℕ :=
  (min (max min_top_veh 1) 5).toNat

/-- `max_vehicles_in_class` (lines 336–343). -/
def max_vehicles_in_class (max_cls_veh : ℤ) (min_top_veh : ℕ) (min_add_veh : ℕ := 0) : ℤ :=
  max max_cls_veh ((min_top_veh : ℤ) + min_add_veh)

/-- `max_vehicle_limit_set` (lines 346–353): limits for combined mode,
other classes, and the player's class. -/
def max_vehicle_limit_set (min_top_veh : ℕ) (max_all max_others max_player : ℤ) :
    ℤ × ℤ × ℤ :=
  (max_vehicles_in_class max_all min_top_veh 2,
   max_vehicles_in_class max_others min_top_veh,
   max_vehicles_in_class max_player min_top_veh 2)

/-- The standings part of `Realtime.update_data` (lines 59–93): clamp the
configuration, build the class data, and produce the standings index list.
`is_split_mode` is the `enable_multi_class_split_mode` setting. -/
def standings_pipeline (vehs : List VehData) (plr_index : ℕ) (plr_place : ℤ)
    (min_top_raw max_all max_others max_player : ℤ) (is_split_mode : Bool) : List ℤ :=
  let min_top_veh := min_top_vehicles_in_class min_top_raw
  let veh_limit := max_vehicle_limit_set min_top_veh max_all max_others max_player
  let cpp := create_class_position vehs
  create_standings_index min_top_veh veh_limit vehs.length plr_index plr_place
    cpp.1 cpp.2.1 (is_split_mode && cpp.2.2)

/-! ### Properties of the reference-place machinery -/

theorem ALL_PLACES_length : ALL_PLACES.length = 128 := by
  rw [ALL_PLACES, List.length_map, List.length_range']

theorem ALL_PLACES_getElem (k : ℕ) (h : k < ALL_PLACES.length) :
    ALL_PLACES[k] = (k : ℤ) + 1 := by
  simp only [ALL_PLACES, List.getElem_map, List.getElem_range']
  push_cast
  ring

theorem mem_pySlice_ALL {x i j : ℤ} (hi : 0 ≤ i) (hj : 0 ≤ j) :
    x ∈ pySlice ALL_PLACES i j ↔ i < x ∧ x ≤ min j 128 := by
  unfold pySlice
  have hlen : ALL_PLACES.length = 128 := ALL_PLACES_length
  have ha : pySliceIdx ALL_PLACES.length i = min i.toNat 128 := by
    rw [pySliceIdx_nonneg _ _ hi, hlen]
  have hb : pySliceIdx ALL_PLACES.length j = min j.toNat 128 := by
    rw [pySliceIdx_nonneg _ _ hj, hlen]
  rw [ha, hb, List.mem_iff_getElem]
  constructor
  · rintro ⟨k, hk, hx⟩
    have hklen : k < min (min j.toNat 128) ALL_PLACES.length - min i.toNat 128 := by
      simpa [List.length_drop, List.length_take] using hk
    rw [List.getElem_drop, List.getElem_take] at hx
    rw [ALL_PLACES_getElem _ (by omega)] at hx
    omega
  · rintro ⟨h1, h2⟩
    have hk : (x - 1).toNat - min i.toNat 128 <
        ((ALL_PLACES.take (min j.toNat 128)).drop (min i.toNat 128)).length := by
      simp [List.length_drop, List.length_take, hlen]
      omega
    refine ⟨(x - 1).toNat - min i.toNat 128, hk, ?_⟩
    rw [List.getElem_drop, List.getElem_take]
    rw [ALL_PLACES_getElem _ (by
      simp only [List.length_drop, List.length_take, hlen] at hk
      omega)]
    omega

/-- Every element of a reference place list is a place in `[1, veh_total]`,
provided the configuration is sane and, in the windowed branch, the
player's place is within the field. -/
theorem create_reference_place_range (T m : ℕ) (P L : ℤ)
    (hT : 1 ≤ T) (hL : (T : ℤ) + 2 ≤ L) (hm : m ≤ 128)
    (hP : P ≤ (m : ℤ)) :
    ∀ r ∈ create_reference_place T m P L, 0 < r ∧ r ≤ (m : ℤ) := by
  intro r hr
  unfold create_reference_place at hr
  split_ifs at hr with h1 h2
  · rw [mem_pySlice_ALL (by omega) (by omega)] at hr
    omega
  · rw [mem_pySlice_ALL (by omega) (by omega)] at hr
    omega
  · simp only [List.mem_append] at hr
    -- floored division bounds for the rear slot count
    have hfd : 0 ≤ (L - (T : ℤ) - 1).fdiv 2 ∧ (L - (T : ℤ) - 1).fdiv 2 ≤ L - T - 1 := by
      constructor
      · exact Int.fdiv_nonneg (by omega) (by omega)
      · rw [Int.fdiv_eq_ediv _ (by omega)]
        omega
    rcases hr with hr | hr
    · rw [mem_pySlice_ALL (by omega) (by omega)] at hr
      omega
    · rw [mem_pySlice_ALL (by omega) (by omega)] at hr
      constructor
      · omega
      · rcases hr with ⟨-, hr2⟩
        split_ifs at hr2 <;> omega

/-- The player's place always appears in its reference place list. -/
theorem create_reference_place_mem (T m : ℕ) (P L : ℤ)
    (hT : 1 ≤ T) (hL : (T : ℤ) + 2 ≤ L) (hm : m ≤ 128)
    (hP1 : 1 ≤ P) (hPm : P ≤ (m : ℤ)) :
    P ∈ create_reference_place T m P L := by
  unfold create_reference_place
  split_ifs with h1 h2
  · rw [mem_pySlice_ALL (by omega) (by omega)]
    omega
  · rw [mem_pySlice_ALL (by omega) (by omega)]
    omega
  · have hfd : 0 ≤ (L - (T : ℤ) - 1).fdiv 2 ∧ (L - (T : ℤ) - 1).fdiv 2 ≤ L - T - 1 := by
      constructor
      · exact Int.fdiv_nonneg (by omega) (by omega)
      · rw [Int.fdiv_eq_ediv _ (by omega)]
        omega
    simp only [List.mem_append]
    refine Or.inr ?_
    rw [mem_pySlice_ALL ?_ ?_]
    · constructor
      · split_ifs <;> omega
      · split_ifs <;> omega
    · split_ifs <;> omega
    · split_ifs <;> omega

/-- `player_index_from_place_reference` always produces a (possibly empty)
run of non-negative vehicle indices followed by a single final `-1`. -/
theorem pifpr_shape (ref : List ℤ) (pil : List (ℤ × ℕ)) :
    ∃ pre, player_index_from_place_reference ref pil = pre ++ [-1] ∧
      ∀ x ∈ pre, 0 ≤ x := by
  induction ref with
  | nil => exact ⟨[], rfl, by intro x hx; exact absurd hx (List.not_mem_nil x)⟩
  | cons r rest ih =>
    unfold player_index_from_place_reference
    split_ifs with h
    · obtain ⟨pre, hpre, hmem⟩ := ih
      refine ⟨((pil.getD (r - 1).toNat (0, 0)).2 : ℤ) :: pre, by rw [hpre]; rfl, ?_⟩
      intro x hx
      rcases List.mem_cons.mp hx with rfl | hx
      · positivity
      · exact hmem x hx
    · exact ⟨[], rfl, by intro x hx; exact absurd hx (List.not_mem_nil x)⟩

/-- When every reference place is within range, no break occurs: the result
is the full mapped list plus the trailing `-1`. -/
theorem pifpr_full (ref : List ℤ) (pil : List (ℤ × ℕ))
    (h : ∀ r ∈ ref, 0 < r ∧ r ≤ (pil.length : ℤ)) :
    player_index_from_place_reference ref pil
      = ref.map (fun r => ((pil.getD (r - 1).toNat (0, 0)).2 : ℤ)) ++ [-1] := by
  induction ref with
  | nil => rfl
  | cons r rest ih =>
    unfold player_index_from_place_reference
    rw [if_pos (h r (List.mem_cons_self r rest))]
    rw [ih (fun u hu => h u (List.mem_cons_of_mem r hu))]
    simp

theorem calc_standings_index_shape (T m : ℕ) (L P : ℤ) (pil : List (ℤ × ℕ)) :
    ∃ pre, calc_standings_index T m L P pil = pre ++ [-1] ∧ ∀ x ∈ pre, 0 ≤ x :=
  pifpr_shape _ _

theorem class_standings_for_shape (T : ℕ) (plr : ℕ) (Lo Lp : ℤ)
    (block : List ClassEntry) :
    ∃ pre, class_standings_for T plr Lo Lp block = pre ++ [-1] ∧ ∀ x ∈ pre, 0 ≤ x := by
  simp only [class_standings_for]
  split_ifs <;> exact pifpr_shape _ _

theorem splitClassRun_ne_nil (name : ℕ) (acc : List ClassEntry)
    (l : List ClassEntry) : splitClassRun name acc l ≠ [] := by
  induction l generalizing name acc with
  | nil => simp [splitClassRun]
  | cons v rest ih =>
    unfold splitClassRun
    split_ifs
    · exact ih _ _
    · simp

theorem positionInClassGo_length (sb : ℚ) (p : ℕ) (pos : ℕ) (b : ℚ) (a : ℤ)
    (l : List RawVeh) : (positionInClassGo sb p pos b a l).length = l.length := by
  induction l generalizing p pos b a with
  | nil => rfl
  | cons v rest ih =>
    simp only [positionInClassGo, List.length_cons]
    rw [ih]

theorem create_position_in_class_length (l : List RawVeh) :
    (create_position_in_class l).length = l.length := by
  cases l with
  | nil => rfl
  | cons v rest =>
    simp only [create_position_in_class]
    rw [positionInClassGo_length]

/-- The concatenation of lists each ending in `-1` is non-empty and ends
in `-1`. -/
theorem join_sentinel (ls : List (List ℤ)) (h : ls ≠ [])
    (hall : ∀ l ∈ ls, ∃ pre, l = pre ++ [-1]) :
    ls.join ≠ [] ∧ ls.join.getLast? = some (-1) := by
  induction ls with
  | nil => exact absurd rfl h
  | cons l rest ih =>
    obtain ⟨pre, hpre⟩ := hall l (List.mem_cons_self l rest)
    by_cases hr : rest = []
    · subst hr
      subst hpre
      constructor
      · simp
      · simp [List.getLast?_concat]
    · obtain ⟨h1, h2⟩ := ih hr (fun u hu => hall u (List.mem_cons_of_mem l hu))
      constructor
      · simp only [List.join_cons]
        intro hc
        exact h1 (List.append_eq_nil.mp hc).2
      · simp only [List.join_cons, List.getLast?_append, h2, Option.or_some]

/-- C9 (implicit): every standings index list is non-empty and ends with
the sentinel `-1`; in single-class mode the result is a run of vehicle
indices followed by exactly one trailing `-1`, and in multi-class split
mode the result is a concatenation of per-class lists, each of which ends
with its own `-1` sentinel (including the final one). -/
theorem claim_C9_standings_sentinels :
    ∀ (vehs : List VehData) (plr_index : ℕ) (plr_place : ℤ)
      (min_top_raw max_all max_others max_player : ℤ) (is_split : Bool),
      vehs ≠ [] →
      (standings_pipeline vehs plr_index plr_place min_top_raw max_all max_others
          max_player is_split ≠ [] ∧
        (standings_pipeline vehs plr_index plr_place min_top_raw max_all max_others
          max_player is_split).getLast? = some (-1)) ∧
      ((is_split && (create_class_position vehs).2.2) = false →
        ∃ pre, standings_pipeline vehs plr_index plr_place min_top_raw max_all max_others
            max_player is_split = pre ++ [-1] ∧ (-1 : ℤ) ∉ pre) ∧
      ((is_split && (create_class_position vehs).2.2) = true →
        ∃ blocks : List (List ℤ), blocks ≠ [] ∧
          standings_pipeline vehs plr_index plr_place min_top_raw max_all max_others
            max_player is_split = blocks.join ∧
          ∀ bl ∈ blocks, ∃ pre, bl = pre ++ [-1] ∧ (-1 : ℤ) ∉ pre) := by
  intro vehs plr_index plr_place mtr ma mo mp is_split hne
  have hpipe : standings_pipeline vehs plr_index plr_place mtr ma mo mp is_split
      = create_standings_index (min_top_vehicles_in_class mtr)
          (max_vehicle_limit_set (min_top_vehicles_in_class mtr) ma mo mp)
          vehs.length plr_index plr_place
          (create_class_position vehs).1 (create_class_position vehs).2.1
          (is_split && (create_class_position vehs).2.2) := rfl
  -- the multi-class block list and its properties
  by_cases hflag : (is_split && (create_class_position vehs).2.2) = true
  · -- multi-class split mode
    have hmulti : create_standings_index (min_top_vehicles_in_class mtr)
        (max_vehicle_limit_set (min_top_vehicles_in_class mtr) ma mo mp)
        vehs.length plr_index plr_place
        (create_class_position vehs).1 (create_class_position vehs).2.1
        (is_split && (create_class_position vehs).2.2)
        = ((List.mergeSort
            (split_class_list (List.mergeSort (create_class_position vehs).1 classKeyLe))
            collectionLe).map
          (class_standings_for (min_top_vehicles_in_class mtr) plr_index
            (max_vehicle_limit_set (min_top_vehicles_in_class mtr) ma mo mp).2.1
            (max_vehicle_limit_set (min_top_vehicles_in_class mtr) ma mo mp).2.2)).join := by
      simp only [create_standings_index, hflag, if_true]
    have hblocks_ne : (List.mergeSort
        (split_class_list (List.mergeSort (create_class_position vehs).1 classKeyLe))
        collectionLe) ≠ [] := by
      have hcplen : (create_class_position vehs).1.length = vehs.length := by
        show (List.mergeSort (create_position_in_class
          (List.mergeSort (get_vehicle_class_data vehs) rawVehLe)) classEntryLe).length = _
        rw [(List.mergeSort_perm _ classEntryLe).length_eq,
            create_position_in_class_length,
            (List.mergeSort_perm _ rawVehLe).length_eq]
        show (vehs.enum.map _).length = _
        rw [List.length_map, List.enum_length]
      have hs1 : (List.mergeSort (create_class_position vehs).1 classKeyLe) ≠ [] := by
        intro hc
        have := congrArg List.length hc
        rw [(List.mergeSort_perm _ classKeyLe).length_eq, hcplen] at this
        exact hne (List.length_eq_zero.mp this)
      intro hc
      have := congrArg List.length hc
      rw [(List.mergeSort_perm _ collectionLe).length_eq] at this
      have hsplit : split_class_list (List.mergeSort (create_class_position vehs).1 classKeyLe)
          = [] := List.length_eq_zero.mp this
      cases hs2 : (List.mergeSort (create_class_position vehs).1 classKeyLe) with
      | nil => exact hs1 hs2
      | cons v rest =>
        rw [hs2] at hsplit
        exact splitClassRun_ne_nil v.class_name [v] rest hsplit
    have hall : ∀ bl ∈ (List.mergeSort
        (split_class_list (List.mergeSort (create_class_position vehs).1 classKeyLe))
        collectionLe).map
          (class_standings_for (min_top_vehicles_in_class mtr) plr_index
            (max_vehicle_limit_set (min_top_vehicles_in_class mtr) ma mo mp).2.1
            (max_vehicle_limit_set (min_top_vehicles_in_class mtr) ma mo mp).2.2),
        ∃ pre, bl = pre ++ [-1] ∧ (-1 : ℤ) ∉ pre := by
      intro bl hbl
      obtain ⟨block, -, rfl⟩ := List.mem_map.mp hbl
      obtain ⟨pre, hpre, hmem⟩ := class_standings_for_shape _ _ _ _ block
      refine ⟨pre, hpre, ?_⟩
      intro hc
      have := hmem _ hc
      norm_num at this
    have hjoin := join_sentinel _ (by
        intro hc
        rw [List.map_eq_nil] at hc
        exact hblocks_ne hc)
      (fun u hu => (hall u hu).imp (fun pre h => h.1))
    refine ⟨⟨?_, ?_⟩, ?_, ?_⟩
    · rw [hpipe, hmulti]
      exact hjoin.1
    · rw [hpipe, hmulti]
      exact hjoin.2
    · intro hc
      rw [hflag] at hc
      exact absurd hc (by norm_num)
    · intro _
      exact ⟨_, (by
        intro hc
        rw [List.map_eq_nil] at hc
        exact hblocks_ne hc), by rw [hpipe, hmulti], hall⟩
  · -- single-class mode
    have hflag' : (is_split && (create_class_position vehs).2.2) = false := by
      simpa using hflag
    have hsingle : create_standings_index (min_top_vehicles_in_class mtr)
        (max_vehicle_limit_set (min_top_vehicles_in_class mtr) ma mo mp)
        vehs.length plr_index plr_place
        (create_class_position vehs).1 (create_class_position vehs).2.1
        (is_split && (create_class_position vehs).2.2)
        = calc_standings_index (min_top_vehicles_in_class mtr) vehs.length
            (max_vehicle_limit_set (min_top_vehicles_in_class mtr) ma mo mp).1
            plr_place (create_class_position vehs).2.1 := by
      simp only [create_standings_index, hflag', if_false]
      rfl
    obtain ⟨pre, hpre, hmem⟩ := calc_standings_index_shape
      (min_top_vehicles_in_class mtr) vehs.length
      (max_vehicle_limit_set (min_top_vehicles_in_class mtr) ma mo mp).1
      plr_place (create_class_position vehs).2.1
    have hnomem : (-1 : ℤ) ∉ pre := by
      intro hc
      have := hmem _ hc
      norm_num at this
    refine ⟨⟨?_, ?_⟩, ?_, ?_⟩
    · rw [hpipe, hsingle, hpre]
      simp
    · rw [hpipe, hsingle, hpre]
      simp [List.getLast?_concat]
    · intro _
      exact ⟨pre, by rw [hpipe, hsingle, hpre], hnomem⟩
    · intro hc
      exact absurd hc (by rw [hflag']; norm_num)

/-- Witness for C9: a one-vehicle session (single class, split mode
enabled but inactive) yields a non-empty standings list with one trailing
`-1`. -/
theorem claim_C9_witness :
    (standings_pipeline [⟨0, 1, 100⟩] 0 1 1 10 10 10 true ≠ [] ∧
      (standings_pipeline [⟨0, 1, 100⟩] 0 1 1 10 10 10 true).getLast? = some (-1)) ∧
    (∃ pre, standings_pipeline [⟨0, 1, 100⟩] 0 1 1 10 10 10 true = pre ++ [-1] ∧
      (-1 : ℤ) ∉ pre) :=
  ⟨(claim_C9_standings_sentinels [⟨0, 1, 100⟩] 0 1 1 10 10 10 true (by simp)).1,
   (claim_C9_standings_sentinels [⟨0, 1, 100⟩] 0 1 1 10 10 10 true (by simp)).2.1
     (by decide)⟩

/-- The C4 counterexample field: four vehicles of one class whose API
places are all 1 (a degenerate assignment the claim quantifies over). -/
def c4Vehs : List VehData :=
  [⟨0, 1, 100⟩, ⟨0, 1, 100⟩, ⟨0, 1, 100⟩, ⟨0, 1, 100⟩]

set_option maxRecDepth 8000 in
unseal List.merge List.mergeSort in
/-- Counterexample to C4 as stated: with `min_top_vehicles = 1` and all
vehicle limits 3, four vehicles whose reported places are all 1 and the
player at index 3 (reported place 1), the single-class standings list is
`[0, 1, 2, -1]` — the player's vehicle index 3 is absent. -/
theorem claim_C4_counterexample :
    (3 : ℤ) ∉ standings_pipeline c4Vehs 3 1 1 3 3 3 false ∧
    standings_pipeline c4Vehs 3 1 1 3 3 3 false = [0, 1, 2, -1] := by
  constructor <;> decide

/-! ### C4 (amended): player visibility under sane place data -/

theorem pairLe_trans : ∀ (a b c : ℤ × ℕ), pairLe a b → pairLe b c → pairLe a c := by
  intro a b c h1 h2
  simp only [pairLe, decide_eq_true_eq] at *
  exact le_trans h1 h2

theorem pairLe_total : ∀ (a b : ℤ × ℕ), pairLe a b || pairLe b a := by
  intro a b
  simpa [pairLe] using le_total (toLex a) (toLex b)

theorem pairLe_fst {a b : ℤ × ℕ} (h : pairLe a b) : a.1 ≤ b.1 := by
  have h' : toLex a ≤ toLex b := by simpa [pairLe] using h
  rcases (Prod.Lex.le_iff a b).mp h' with h1 | ⟨h1, -⟩
  · exact le_of_lt h1
  · exact le_of_eq h1

theorem rawVehLe_trans : ∀ (a b c : RawVeh), rawVehLe a b → rawVehLe b c → rawVehLe a c := by
  intro a b c h1 h2
  simp only [rawVehLe, decide_eq_true_eq] at *
  exact le_trans h1 h2

theorem rawVehLe_total : ∀ (a b : RawVeh), rawVehLe a b || rawVehLe b a := by
  intro a b
  simpa [rawVehLe] using
    le_total (toLex (a.class_name, toLex (a.position, toLex (a.index, a.laptime_best))))
      (toLex (b.class_name, toLex (b.position, toLex (b.index, b.laptime_best))))

theorem rawVehLe_name {a b : RawVeh} (h : rawVehLe a b) : a.class_name ≤ b.class_name := by
  simp only [rawVehLe, decide_eq_true_eq] at h
  rcases (Prod.Lex.le_iff _ _).mp h with h1 | ⟨h1, -⟩
  · exact le_of_lt h1
  · exact le_of_eq h1

theorem classKeyLe_trans : ∀ (a b c : ClassEntry),
    classKeyLe a b → classKeyLe b c → classKeyLe a c := by
  intro a b c h1 h2
  simp only [classKeyLe, decide_eq_true_eq] at *
  exact le_trans h1 h2

theorem classKeyLe_total : ∀ (a b : ClassEntry), classKeyLe a b || classKeyLe b a := by
  intro a b
  simpa [classKeyLe] using
    le_total (toLex (a.class_name, toLex (a.laptime_class_best, a.position_in_class)))
      (toLex (b.class_name, toLex (b.laptime_class_best, b.position_in_class)))

theorem classKeyLe_name {a b : ClassEntry} (h : classKeyLe a b) :
    a.class_name ≤ b.class_name := by
  simp only [classKeyLe, decide_eq_true_eq] at h
  rcases (Prod.Lex.le_iff _ _).mp h with h1 | ⟨h1, -⟩
  · exact le_of_lt h1
  · exact le_of_eq h1

theorem classKeyLe_pos {a b : ClassEntry} (h : classKeyLe a b)
    (hn : a.class_name = b.class_name) (hb : a.laptime_class_best = b.laptime_class_best) :
    a.position_in_class ≤ b.position_in_class := by
  simp only [classKeyLe, decide_eq_true_eq] at h
  rcases (Prod.Lex.le_iff _ _).mp h with h1 | ⟨-, h2⟩
  · exact absurd h1 (by omega)
  · rcases (Prod.Lex.le_iff _ _).mp h2 with h3 | ⟨-, h4⟩
    · exact absurd (hb ▸ h3) (lt_irrefl _)
    · exact h4

theorem get_vehicle_class_data_length (vehs : List VehData) :
    (get_vehicle_class_data vehs).length = vehs.length := by
  rw [get_vehicle_class_data, List.length_map, List.enum_length]

theorem gvcd_map_position (vehs : List VehData) :
    (get_vehicle_class_data vehs).map RawVeh.position = vehs.map VehData.place := by
  rw [get_vehicle_class_data, List.map_map]
  have h : (RawVeh.position ∘ fun iv : ℕ × VehData =>
      ({ class_name := iv.2.class_name, position := iv.2.place, index := iv.1,
         laptime_best := if iv.2.laptime_best > 0 then iv.2.laptime_best else 99999 } : RawVeh))
      = VehData.place ∘ Prod.snd := rfl
  rw [h, ← List.map_map, List.enum_map_snd]

theorem gvcd_map_index (vehs : List VehData) :
    (get_vehicle_class_data vehs).map RawVeh.index = List.range vehs.length := by
  rw [get_vehicle_class_data, List.map_map]
  have h : (RawVeh.index ∘ fun iv : ℕ × VehData =>
      ({ class_name := iv.2.class_name, position := iv.2.place, index := iv.1,
         laptime_best := if iv.2.laptime_best > 0 then iv.2.laptime_best else 99999 } : RawVeh))
      = Prod.fst := rfl
  rw [h, List.enum_map_fst]

theorem gvcd_map_class (vehs : List VehData) :
    (get_vehicle_class_data vehs).map RawVeh.class_name = vehs.map VehData.class_name := by
  rw [get_vehicle_class_data, List.map_map]
  have h : (RawVeh.class_name ∘ fun iv : ℕ × VehData =>
      ({ class_name := iv.2.class_name, position := iv.2.place, index := iv.1,
         laptime_best := if iv.2.laptime_best > 0 then iv.2.laptime_best else 99999 } : RawVeh))
      = VehData.class_name ∘ Prod.snd := rfl
  rw [h, ← List.map_map, List.enum_map_snd]

theorem gvcd_pair_fst (vehs : List VehData) :
    ((get_vehicle_class_data vehs).map (fun v => (v.position, v.index))).map Prod.fst
      = vehs.map VehData.place := by
  rw [List.map_map]
  have h : (Prod.fst ∘ fun v : RawVeh => (v.position, v.index)) = RawVeh.position := rfl
  rw [h, gvcd_map_position]

theorem gvcd_pair_mem (vehs : List VehData) (k : ℕ) (hk : k < vehs.length) :
    ((vehs[k].place, k) : ℤ × ℕ) ∈
      (get_vehicle_class_data vehs).map (fun v => (v.position, v.index)) := by
  rw [get_vehicle_class_data, List.map_map]
  exact List.mem_map.mpr ⟨(k, vehs[k]),
    List.mk_mem_enum_iff_getElem?.mpr (List.getElem?_eq_getElem hk), rfl⟩

theorem min_top_vehicles_pos (x : ℤ) : 1 ≤ min_top_vehicles_in_class x := by
  rw [min_top_vehicles_in_class]
  omega

/-- If the `(place, index)` list is sorted and holds exactly the places
`1, …, n` (as a permutation), then the pair at position `k` has place
`k + 1`. -/
theorem sorted_places_fst (pil : List (ℤ × ℕ)) (n : ℕ)
    (hsort : List.Pairwise (fun a b : ℤ × ℕ => pairLe a b) pil)
    (hperm : List.Perm (pil.map Prod.fst) ((List.range' 1 n).map (fun k : ℕ => (k : ℤ)))) :
    ∀ (k : ℕ) (h : k < pil.length), (pil[k]).1 = (k : ℤ) + 1 := by
  have hs1 : List.Pairwise (· ≤ ·) (pil.map Prod.fst) := by
    rw [List.pairwise_map]
    exact hsort.imp (fun h => pairLe_fst h)
  have hs2 : List.Pairwise (· ≤ ·) ((List.range' 1 n).map (fun k : ℕ => (k : ℤ))) := by
    rw [List.pairwise_map]
    exact (List.pairwise_le_range' 1 n).imp (fun h => by exact_mod_cast h)
  have heq : pil.map Prod.fst = (List.range' 1 n).map (fun k : ℕ => (k : ℤ)) :=
    List.eq_of_perm_of_sorted hperm hs1 hs2
  intro k hk
  have hk2 : k < (pil.map Prod.fst).length := by
    rw [List.length_map]
    exact hk
  have hk3 : k < n := by
    have := hperm.length_eq
    simp only [List.length_map, List.length_range'] at this
    omega
  have hk4 : k < ((List.range' 1 n).map (fun k : ℕ => (k : ℤ))).length := by
    rw [List.length_map, List.length_range']
    exact hk3
  have hv : (pil.map Prod.fst)[k] = ((List.range' 1 n).map (fun k : ℕ => (k : ℤ)))[k] := by
    simp only [heq]
  rw [List.getElem_map, List.getElem_map, List.getElem_range'] at hv
  rw [hv]
  push_cast
  ring

/-- Membership in the single-window standings list: if the pair list is
`(1, i₀), (2, i₁), …` in order and holds `(P, plr)`, then `plr` appears in
the produced index list, for any sane limits. -/
theorem calc_standings_index_mem (T : ℕ) (L P : ℤ) (pil : List (ℤ × ℕ)) (plr : ℕ)
    (hT : 1 ≤ T) (hL : (T : ℤ) + 2 ≤ L) (hn : pil.length ≤ 128)
    (hfst : ∀ (k : ℕ) (h : k < pil.length), (pil[k]).1 = (k : ℤ) + 1)
    (hmem : (P, plr) ∈ pil) :
    (plr : ℤ) ∈ calc_standings_index T pil.length L P pil := by
  obtain ⟨k, hk, hget⟩ := List.getElem_of_mem hmem
  have hP : P = (k : ℤ) + 1 := by
    have h1 := hfst k hk
    rw [hget] at h1
    exact h1
  have h1 : 1 ≤ P := by omega
  have h2 : P ≤ (pil.length : ℤ) := by omega
  have hrange := create_reference_place_range T pil.length P L hT hL hn h2
  rw [calc_standings_index, pifpr_full _ _ hrange]
  refine List.mem_append_left _ (List.mem_map.mpr
    ⟨P, create_reference_place_mem T pil.length P L hT hL hn h1 h2, ?_⟩)
  have hk' : (P - 1).toNat = k := by omega
  rw [hk', List.getD_eq_getElem pil (0, 0) hk, hget]

theorem positionInClassGo_map_index (sb : ℚ) (p pos : ℕ) (b : ℚ) (a : ℤ)
    (l : List RawVeh) :
    (positionInClassGo sb p pos b a l).map ClassEntry.index = l.map RawVeh.index := by
  induction l generalizing p pos b a with
  | nil => rfl
  | cons v rest ih =>
    simp only [positionInClassGo, List.map_cons]
    rw [ih]

theorem positionInClassGo_map_class (sb : ℚ) (p pos : ℕ) (b : ℚ) (a : ℤ)
    (l : List RawVeh) :
    (positionInClassGo sb p pos b a l).map ClassEntry.class_name
      = l.map RawVeh.class_name := by
  induction l generalizing p pos b a with
  | nil => rfl
  | cons v rest ih =>
    simp only [positionInClassGo, List.map_cons]
    rw [ih]

/-- The class positions assigned by the `create_position_in_class` loop:
restricted to one class name `c`, they are consecutive — continuing from
`pos` for the class `p` currently being counted, restarting at 1 for any
later class. -/
theorem positionInClassGo_filter_pos (sb : ℚ) (c : ℕ) :
    ∀ (l : List RawVeh) (p pos : ℕ) (b : ℚ) (a : ℤ),
    List.Pairwise (fun u w : RawVeh => u.class_name ≤ w.class_name) l →
    (∀ u ∈ l, p ≤ u.class_name) →
    ((positionInClassGo sb p pos b a l).filter (fun e => e.class_name == c)).map
        ClassEntry.position_in_class
      = if c = p then List.range' (pos + 1) (l.countP (fun u => u.class_name == c))
        else List.range' 1 (l.countP (fun u => u.class_name == c)) := by
  intro l
  induction l with
  | nil =>
    intro p pos b a h1 h2
    simp [positionInClassGo]
  | cons v rest ih =>
    intro p pos b a hsort hge
    have hhead := (List.pairwise_cons.mp hsort).1
    have htail := (List.pairwise_cons.mp hsort).2
    by_cases hv : v.class_name = p
    · simp only [positionInClassGo, if_pos hv]
      have hrec := ih v.class_name (pos + 1)
        (if pos + 1 = 1 then v.laptime_best else b) (v.index : ℤ) htail hhead
      by_cases hc : c = p
      · rw [List.filter_cons_of_pos (by simp [hv, hc]), List.map_cons, hrec,
            if_pos (hc.trans hv.symm),
            List.countP_cons_of_pos (fun u : RawVeh => u.class_name == c) rest
              (by simp [hv, hc]),
            if_pos hc, List.range'_succ]
      · rw [List.filter_cons_of_neg (by simp [hv, hc]; exact fun he => hc he.symm), hrec,
            if_neg (fun he : c = v.class_name => hc (he.trans hv)),
            List.countP_cons_of_neg (fun u : RawVeh => u.class_name == c) rest
              (by simp [hv]; exact fun he => hc he.symm),
            if_neg hc]
    · have hlt : p < v.class_name :=
        lt_of_le_of_ne (hge v (List.mem_cons_self v rest)) (fun he => hv he.symm)
      simp only [positionInClassGo, if_neg hv, if_true]
      have hrec := ih v.class_name 1 v.laptime_best (v.index : ℤ) htail hhead
      by_cases hc : c = v.class_name
      · rw [List.filter_cons_of_pos (by simp [hc]), List.map_cons, hrec, if_pos hc,
            List.countP_cons_of_pos (fun u : RawVeh => u.class_name == c) rest
              (by simp [hc]),
            if_neg (fun he : c = p => by omega), List.range'_succ]
      · rw [List.filter_cons_of_neg (by simp; exact fun he => hc he.symm), hrec,
            if_neg hc,
            List.countP_cons_of_neg (fun u : RawVeh => u.class_name == c) rest
              (by simp; exact fun he => hc he.symm)]
        by_cases hcp : c = p
        · have hz : rest.countP (fun u => u.class_name == c) = 0 := by
            rw [List.countP_eq_zero]
            intro u hu
            have := hhead u hu
            simp only [beq_iff_eq]
            omega
          rw [if_pos hcp, hz]
          rfl
        · rw [if_neg hcp]

/-- The best lap time of the first vehicle of class `c` in the list (the
value `laptime_class_best` carries for that class). -/
def classBestIn (l : List RawVeh) (c : ℕ) : ℚ :=
  match l.find? (fun u => u.class_name == c) with
  | some u => u.laptime_best
  | none => 0

/-- Every entry produced by the `create_position_in_class` loop carries, as
`laptime_class_best`, the best lap time of the first listed vehicle of its
class (the carried-in value `b` for the class still being counted). -/
theorem positionInClassGo_classbest (sb : ℚ) :
    ∀ (l : List RawVeh) (p pos : ℕ) (b : ℚ) (a : ℤ),
    List.Pairwise (fun u w : RawVeh => u.class_name ≤ w.class_name) l →
    (∀ u ∈ l, p ≤ u.class_name) →
    ∀ e ∈ positionInClassGo sb p pos b a l,
      e.laptime_class_best =
        if e.class_name = p ∧ pos ≠ 0 then b else classBestIn l e.class_name := by
  intro l
  induction l with
  | nil =>
    intro p pos b a h1 h2 e he
    simp [positionInClassGo] at he
  | cons v rest ih =>
    intro p pos b a hsort hge e he
    have hhead := (List.pairwise_cons.mp hsort).1
    have htail := (List.pairwise_cons.mp hsort).2
    by_cases hv : v.class_name = p
    · simp only [positionInClassGo, if_pos hv] at he
      rcases List.mem_cons.mp he with rfl | he'
      · by_cases hp0 : pos = 0
        · subst hp0
          simp [classBestIn, hv]
        · have h1 : pos + 1 ≠ 1 := by omega
          simp [classBestIn, h1, hv, hp0]
      · have hih := ih v.class_name (pos + 1) _ (v.index : ℤ) htail hhead e he'
        by_cases hec : e.class_name = v.class_name
        · rw [if_pos ⟨hec, by omega⟩] at hih
          by_cases hp0 : pos = 0
          · subst hp0
            rw [if_pos (show 0 + 1 = 1 from rfl)] at hih
            simp [classBestIn, hec, hih, hv]
          · rw [if_neg (by omega)] at hih
            rw [hih, if_pos ⟨hec.trans hv, hp0⟩]
        · rw [if_neg (by simp [hec])] at hih
          rw [hih, if_neg (fun hcon => hec (hcon.1.trans hv.symm))]
          have hne : (v.class_name == e.class_name) = false := by
            simp only [beq_eq_false_iff_ne, ne_eq]
            exact fun h2 => hec h2.symm
          simp [classBestIn, hne]
    · have hlt : p < v.class_name :=
        lt_of_le_of_ne (hge v (List.mem_cons_self v rest)) (fun he2 => hv he2.symm)
      simp only [positionInClassGo, if_neg hv, if_true] at he
      rcases List.mem_cons.mp he with rfl | he'
      · simp [classBestIn, hv]
      · have hih := ih v.class_name 1 _ (v.index : ℤ) htail hhead e he'
        by_cases hec : e.class_name = v.class_name
        · rw [if_pos ⟨hec, by omega⟩] at hih
          rw [hih, if_neg (fun hcon => hv (hec.symm.trans hcon.1))]
          simp [classBestIn, hec]
        · rw [if_neg (by simp [hec])] at hih
          have hmem2 : e.class_name ∈ rest.map RawVeh.class_name := by
            rw [← positionInClassGo_map_class sb v.class_name 1 v.laptime_best
              (v.index : ℤ) rest]
            exact List.mem_map_of_mem _ he'
          obtain ⟨u, hu, huc⟩ := List.mem_map.mp hmem2
          have hgeu := hhead u hu
          rw [hih, if_neg (fun hcon => by omega)]
          have hne : (v.class_name == e.class_name) = false := by
            simp only [beq_eq_false_iff_ne, ne_eq]
            exact fun h2 => hec h2.symm
          simp [classBestIn, hne]

/-- `create_position_in_class` positions within one class are exactly
`1, …, count` in list order. -/
theorem cpic_filter_pos (l : List RawVeh) (c : ℕ)
    (hsort : List.Pairwise (fun u w : RawVeh => u.class_name ≤ w.class_name) l) :
    ((create_position_in_class l).filter (fun e => e.class_name == c)).map
        ClassEntry.position_in_class
      = List.range' 1 (l.countP (fun u => u.class_name == c)) := by
  cases l with
  | nil => rfl
  | cons v rest =>
    simp only [create_position_in_class]
    rw [positionInClassGo_filter_pos (session_best_laptime (v :: rest)) c (v :: rest)
      v.class_name 0 99999 (-1) hsort ?_]
    · split_ifs <;> rfl
    · intro u hu
      rcases List.mem_cons.mp hu with rfl | hu'
      · exact le_refl _
      · exact (List.pairwise_cons.mp hsort).1 u hu'

/-- Every `create_position_in_class` entry carries its class's first-listed
best lap time. -/
theorem cpic_classbest (l : List RawVeh)
    (hsort : List.Pairwise (fun u w : RawVeh => u.class_name ≤ w.class_name) l) :
    ∀ e ∈ create_position_in_class l,
      e.laptime_class_best = classBestIn l e.class_name := by
  cases l with
  | nil =>
    intro e he
    simp [create_position_in_class] at he
  | cons v rest =>
    intro e he
    simp only [create_position_in_class] at he
    have h := positionInClassGo_classbest (session_best_laptime (v :: rest)) (v :: rest)
      v.class_name 0 99999 (-1) hsort ?_ e he
    · simpa using h
    · intro u hu
      rcases List.mem_cons.mp hu with rfl | hu'
      · exact le_refl _
      · exact (List.pairwise_cons.mp hsort).1 u hu'

theorem splitClassRun_join (name : ℕ) (acc : List ClassEntry) (l : List ClassEntry) :
    (splitClassRun name acc l).join = acc.reverse ++ l := by
  induction l generalizing name acc with
  | nil => simp [splitClassRun]
  | cons v rest ih =>
    unfold splitClassRun
    split_ifs with h
    · rw [ih]
      simp
    · simp only [List.join_cons]
      have ih' : (splitClassRun v.class_name [v] rest).flatten = [v].reverse ++ rest :=
        ih v.class_name [v]
      rw [ih']
      simp

theorem splitClassRun_blocks_ne_nil (name : ℕ) (acc : List ClassEntry)
    (l : List ClassEntry) (hacc : acc ≠ []) :
    ∀ B ∈ splitClassRun name acc l, B ≠ [] := by
  induction l generalizing name acc with
  | nil =>
    intro B hB
    simp only [splitClassRun, List.mem_singleton] at hB
    subst hB
    simpa using hacc
  | cons v rest ih =>
    intro B hB
    unfold splitClassRun at hB
    split_ifs at hB with h
    · exact ih _ _ (by simp) B hB
    · rcases List.mem_cons.mp hB with rfl | hB'
      · simpa using hacc
      · exact ih _ _ (by simp) B hB'

theorem splitClassRun_const (name : ℕ) (acc : List ClassEntry) (l : List ClassEntry)
    (hacc : ∀ u ∈ acc, u.class_name = name) :
    ∀ B ∈ splitClassRun name acc l, ∀ u ∈ B, ∀ w ∈ B,
      u.class_name = w.class_name := by
  induction l generalizing name acc with
  | nil =>
    intro B hB u hu w hw
    simp only [splitClassRun, List.mem_singleton] at hB
    subst hB
    rw [hacc u (List.mem_reverse.mp hu), hacc w (List.mem_reverse.mp hw)]
  | cons v rest ih =>
    intro B hB
    unfold splitClassRun at hB
    split_ifs at hB with h
    · refine ih name (v :: acc) ?_ B hB
      intro u hu
      rcases List.mem_cons.mp hu with rfl | hu'
      · exact h
      · exact hacc u hu'
    · rcases List.mem_cons.mp hB with rfl | hB'
      · intro u hu w hw
        rw [hacc u (List.mem_reverse.mp hu), hacc w (List.mem_reverse.mp hw)]
      · exact ih v.class_name [v] (by simp) B hB'

/-- For a class-name-sorted input, the blocks produced by the splitting
loop carry strictly increasing class names. -/
theorem splitClassRun_names_lt (name : ℕ) (acc : List ClassEntry) (l : List ClassEntry)
    (hacc : ∀ u ∈ acc, u.class_name = name)
    (hsort : List.Pairwise (fun u w : ClassEntry => u.class_name ≤ w.class_name) l)
    (hge : ∀ u ∈ l, name ≤ u.class_name) :
    List.Pairwise (fun B1 B2 : List ClassEntry =>
      ∀ u ∈ B1, ∀ w ∈ B2, u.class_name < w.class_name) (splitClassRun name acc l) := by
  induction l generalizing name acc with
  | nil =>
    simp only [splitClassRun]
    exact List.pairwise_singleton _ _
  | cons v rest ih =>
    have hhead := (List.pairwise_cons.mp hsort).1
    have htail := (List.pairwise_cons.mp hsort).2
    unfold splitClassRun
    split_ifs with h
    · refine ih name (v :: acc) ?_ htail
        (fun u hu => hge u (List.mem_cons_of_mem v hu))
      intro u hu
      rcases List.mem_cons.mp hu with rfl | hu'
      · exact h
      · exact hacc u hu'
    · have hlt : name < v.class_name :=
        lt_of_le_of_ne (hge v (List.mem_cons_self v rest)) (fun he => h he.symm)
      rw [List.pairwise_cons]
      constructor
      · intro B' hB' u hu w hw
        have hu' : u.class_name = name := hacc u (List.mem_reverse.mp hu)
        have hw' : w ∈ ([v].reverse ++ rest : List ClassEntry) := by
          rw [← splitClassRun_join v.class_name [v] rest]
          exact List.mem_join.mpr ⟨B', hB', hw⟩
        have hw2 : v.class_name ≤ w.class_name := by
          rcases List.mem_append.mp hw' with hw3 | hw3
          · rw [List.mem_reverse, List.mem_singleton] at hw3
            simp [hw3]
          · exact hhead w hw3
        omega
      · exact ih v.class_name [v] (by simp) htail hhead

/-- With pairwise-distinct block class names, filtering the concatenation
for the class of a (non-empty, single-class) member block recovers exactly
that block. -/
theorem join_filter_eq_block (blocks : List (List ClassEntry)) (c : ℕ)
    (B : List ClassEntry) (hmem : B ∈ blocks)
    (hdisj : List.Pairwise (fun B1 B2 : List ClassEntry =>
      ∀ u ∈ B1, ∀ w ∈ B2, u.class_name ≠ w.class_name) blocks)
    (hB : ∀ u ∈ B, u.class_name = c) (hBne : B ≠ []) :
    blocks.join.filter (fun e => e.class_name == c) = B := by
  induction blocks with
  | nil => exact absurd hmem (List.not_mem_nil B)
  | cons B0 rest ih =>
    simp only [List.join_cons]
    rw [List.filter_append]
    obtain ⟨b0, hb0⟩ := List.exists_mem_of_ne_nil B hBne
    have hb0c : b0.class_name = c := hB b0 hb0
    rcases List.mem_cons.mp hmem with rfl | hmem'
    · have h1 : B.filter (fun e => e.class_name == c) = B :=
        List.filter_eq_self.mpr (fun u hu => by simp [hB u hu])
      have h2 : (rest.flatten).filter (fun e => e.class_name == c) = [] := by
        rw [List.filter_eq_nil_iff]
        intro u hu
        obtain ⟨B', hB', hu'⟩ := List.mem_join.mp hu
        have hne := (List.pairwise_cons.mp hdisj).1 B' hB' b0 hb0 u hu'
        simp only [beq_iff_eq]
        intro hc
        exact hne (by rw [hb0c, hc])
      rw [h1, h2, List.append_nil]
    · have h1 : B0.filter (fun e => e.class_name == c) = [] := by
        rw [List.filter_eq_nil_iff]
        intro u hu
        have hne := (List.pairwise_cons.mp hdisj).1 B hmem' u hu b0 hb0
        simp only [beq_iff_eq]
        intro hc
        exact hne (by rw [hc, hb0c])
      rw [h1, List.nil_append]
      exact ih hmem' (List.pairwise_cons.mp hdisj).2

theorem cpic_map_index (l : List RawVeh) :
    (create_position_in_class l).map ClassEntry.index = l.map RawVeh.index := by
  cases l with
  | nil => rfl
  | cons v rest =>
    simp only [create_position_in_class]
    rw [positionInClassGo_map_index]

theorem cpic_map_class (l : List RawVeh) :
    (create_position_in_class l).map ClassEntry.class_name = l.map RawVeh.class_name := by
  cases l with
  | nil => rfl
  | cons v rest =>
    simp only [create_position_in_class]
    rw [positionInClassGo_map_class]

/-- Membership in a per-class standings list: if the block's class
positions are exactly `1, …, m` in order and the player's index occurs in
the block, the player's index appears in the block's standings list. -/
theorem class_standings_for_mem (T : ℕ) (plr : ℕ) (Lo Lp : ℤ)
    (B : List ClassEntry) (m : ℕ)
    (hT : 1 ≤ T) (hLp : (T : ℤ) + 2 ≤ Lp) (hm : m ≤ 128)
    (hpos : B.map ClassEntry.position_in_class = List.range' 1 m)
    (hmem : plr ∈ B.map ClassEntry.index) :
    (plr : ℤ) ∈ class_standings_for T plr Lo Lp B := by
  have hlen : B.length = m := by
    have h0 := congrArg List.length hpos
    rw [List.length_map, List.length_range'] at h0
    exact h0
  have hBn : B ≠ [] := by
    intro hcon
    rw [hcon] at hmem
    simp at hmem
  have hm1 : 1 ≤ m := by
    have := List.length_pos.mpr hBn
    omega
  have hlast : (List.range' 1 m).getLast? = some m := by
    rw [List.getLast?_eq_getElem?, List.length_range',
        List.getElem?_eq_getElem (by rw [List.length_range']; omega),
        List.getElem_range']
    congr 1
    omega
  have hjlen : (B.map ClassEntry.index).indexOf plr < (B.map ClassEntry.index).length :=
    List.indexOf_lt_length.mpr hmem
  have hj : (B.map ClassEntry.index).indexOf plr < B.length := by
    rw [List.length_map] at hjlen
    exact hjlen
  have hidx := List.getElem_indexOf hjlen
  rw [List.getElem_map] at hidx
  have hBpos : ∀ (k : ℕ) (hk : k < B.length), (B[k]).position_in_class = 1 + k := by
    intro k hk
    have hk2 : k < (B.map ClassEntry.position_in_class).length := by
      rw [List.length_map]
      exact hk
    have hk3 : k < (List.range' 1 m).length := by
      rw [List.length_range']
      omega
    have h1 : (B.map ClassEntry.position_in_class)[k] = (List.range' 1 m)[k] := by
      simp only [hpos]
    rw [List.getElem_map, List.getElem_range'] at h1
    simpa using h1
  have hgetd : (List.range' 1 m).getD ((B.map ClassEntry.index).indexOf plr) 0
      = 1 + (B.map ClassEntry.index).indexOf plr := by
    rw [List.getD_eq_getElem (List.range' 1 m) 0 (by rw [List.length_range']; omega),
        List.getElem_range']
    ring
  have hfinal : (plr : ℤ) ∈ calc_standings_index T
      (B.map (fun e => ((e.position_in_class : ℤ), e.index))).length Lp
      (((1 + (B.map ClassEntry.index).indexOf plr : ℕ) : ℤ))
      (B.map (fun e => ((e.position_in_class : ℤ), e.index))) := by
    refine calc_standings_index_mem T Lp _ _ plr hT hLp ?_ ?_ ?_
    · rw [List.length_map, hlen]
      exact hm
    · intro k hk
      have hk' : k < B.length := by
        rw [List.length_map] at hk
        exact hk
      rw [List.getElem_map]
      simp only [hBpos k hk']
      push_cast
      ring
    · refine List.mem_iff_getElem.mpr ⟨(B.map ClassEntry.index).indexOf plr,
        by rw [List.length_map]; exact hj, ?_⟩
      rw [List.getElem_map, hBpos _ hj, hidx]
  rw [List.length_map, hlen] at hfinal
  simp only [class_standings_for]
  rw [if_pos hmem, hpos, hlast, hgetd]
  exact hfinal

/-- Multi-class split mode: if `scpl` is the key-sorted class position list
of a class-name-sorted raw field `sraw` containing the player's index, the
player's index appears in the joined per-class standings lists. -/
theorem scpl_standings_mem (sraw : List RawVeh) (scpl : List ClassEntry)
    (plr T : ℕ) (Lo Lp : ℤ)
    (hsort : List.Pairwise (fun u w : RawVeh => u.class_name ≤ w.class_name) sraw)
    (hn : sraw.length ≤ 128)
    (hkey : List.Pairwise (fun a b : ClassEntry => classKeyLe a b) scpl)
    (hperm : List.Perm scpl (create_position_in_class sraw))
    (hmem : plr ∈ sraw.map RawVeh.index)
    (hT : 1 ≤ T) (hLp : (T : ℤ) + 2 ≤ Lp) :
    (plr : ℤ) ∈ ((List.mergeSort (split_class_list scpl) collectionLe).map
      (class_standings_for T plr Lo Lp)).join := by
  have h5 : plr ∈ (create_position_in_class sraw).map ClassEntry.index := by
    rw [cpic_map_index]
    exact hmem
  have h6 : plr ∈ scpl.map ClassEntry.index := by
    rw [(hperm.map ClassEntry.index).mem_iff]
    exact h5
  obtain ⟨e, he_scpl, he_idx⟩ := List.mem_map.mp h6
  have hname : List.Pairwise (fun u w : ClassEntry => u.class_name ≤ w.class_name) scpl :=
    hkey.imp (fun h => classKeyLe_name h)
  cases hsc : scpl with
  | nil =>
    rw [hsc] at he_scpl
    exact absurd he_scpl (List.not_mem_nil e)
  | cons v0 tl =>
  rw [hsc] at hname hkey he_scpl hperm
  have hhead := (List.pairwise_cons.mp hname).1
  have htail := (List.pairwise_cons.mp hname).2
  have hjoin : (splitClassRun v0.class_name [v0] tl).join = v0 :: tl := by
    rw [splitClassRun_join]
    rfl
  have he_join : e ∈ (splitClassRun v0.class_name [v0] tl).join := by
    rw [hjoin]
    exact he_scpl
  obtain ⟨B, hB_blocks, he_B⟩ := List.mem_join.mp he_join
  have hconst := splitClassRun_const v0.class_name [v0] tl (by simp) B hB_blocks
  have hBclass : ∀ u ∈ B, u.class_name = e.class_name := fun u hu => hconst u hu e he_B
  have hBne : B ≠ [] := splitClassRun_blocks_ne_nil v0.class_name [v0] tl (by simp) B hB_blocks
  have hdisj := (splitClassRun_names_lt v0.class_name [v0] tl (by simp) htail hhead).imp
    (fun h u hu w hw => ne_of_lt (h u hu w hw))
  have hBfilter : (v0 :: tl).filter (fun x => x.class_name == e.class_name) = B := by
    rw [← hjoin]
    exact join_filter_eq_block _ _ _ hB_blocks hdisj hBclass hBne
  have hBsub : List.Sublist B (v0 :: tl) := by
    rw [← hBfilter]
    exact List.filter_sublist _
  have hBkey : List.Pairwise (fun a b : ClassEntry => classKeyLe a b) B :=
    List.Pairwise.sublist hBsub hkey
  have hbest : ∀ u ∈ B, u.laptime_class_best = classBestIn sraw e.class_name := by
    intro u hu
    have hu_entries : u ∈ create_position_in_class sraw :=
      hperm.mem_iff.mp (hBsub.subset hu)
    rw [cpic_classbest sraw hsort u hu_entries, hBclass u hu]
  have hBposmap : B.map ClassEntry.position_in_class
      = List.range' 1 (sraw.countP (fun u => u.class_name == e.class_name)) := by
    have hf := hperm.filter (fun x : ClassEntry => x.class_name == e.class_name)
    rw [hBfilter] at hf
    have hmap := hf.map ClassEntry.position_in_class
    rw [cpic_filter_pos sraw e.class_name hsort] at hmap
    have hBpos_pair : List.Pairwise (fun x y : ClassEntry =>
        x.position_in_class ≤ y.position_in_class) B := by
      refine List.Pairwise.imp_of_mem ?_ hBkey
      intro x y hx hy hxy
      exact classKeyLe_pos hxy ((hBclass x hx).trans (hBclass y hy).symm)
        ((hbest x hx).trans (hbest y hy).symm)
    have hs1 : List.Pairwise (· ≤ ·) (B.map ClassEntry.position_in_class) :=
      (List.pairwise_map).mpr hBpos_pair
    have hs2 : List.Pairwise (· ≤ ·)
        (List.range' 1 (sraw.countP (fun u => u.class_name == e.class_name))) :=
      List.pairwise_le_range' 1 _
    exact List.eq_of_perm_of_sorted hmap hs1 hs2
  have hcnt : sraw.countP (fun u => u.class_name == e.class_name) ≤ 128 :=
    le_trans (List.countP_le_length _) hn
  have hmemB : plr ∈ B.map ClassEntry.index := List.mem_map.mpr ⟨e, he_B, he_idx⟩
  have hfB := class_standings_for_mem T plr Lo Lp B _ hT hLp hcnt hBposmap hmemB
  refine List.mem_join.mpr ⟨class_standings_for T plr Lo Lp B,
    List.mem_map.mpr ⟨B, ?_, rfl⟩, hfB⟩
  rw [(List.mergeSort_perm (split_class_list (v0 :: tl)) collectionLe).mem_iff]
  simp only [split_class_list]
  exact hB_blocks

set_option maxHeartbeats 1000000 in
/-- C4 (amended): under sane place data — at most 128 vehicles, the
player's index inside the field, the reported places a permutation of
`1, …, n`, and the player's reported place equal to their own vehicle's —
the player's vehicle index is present in the produced standings index
list, in both single-class mode and multi-class split mode, for every
configuration of `min_top_veh` and the vehicle limits.  (The original
claim, quantified over *every* assignment of places, is refuted by
`claim_C4_counterexample`: duplicate places can push the player out.) -/
theorem claim_C4 :
    ∀ (vehs : List VehData) (plr_index : ℕ) (plr_place : ℤ)
      (min_top_raw max_all max_others max_player : ℤ) (is_split : Bool)
      (hn : vehs.length ≤ 128) (hp : plr_index < vehs.length),
      plr_place = (vehs[plr_index]).place →
      List.Perm (vehs.map VehData.place)
        ((List.range' 1 vehs.length).map (fun k : ℕ => (k : ℤ))) →
      (plr_index : ℤ) ∈ standings_pipeline vehs plr_index plr_place
        min_top_raw max_all max_others max_player is_split := by
  intro vehs plr plr_place mtr ma mo mp is_split hn hp hplace hperm
  have hT : 1 ≤ min_top_vehicles_in_class mtr := min_top_vehicles_pos mtr
  have hpipe : standings_pipeline vehs plr plr_place mtr ma mo mp is_split
      = create_standings_index (min_top_vehicles_in_class mtr)
          (max_vehicle_limit_set (min_top_vehicles_in_class mtr) ma mo mp)
          vehs.length plr plr_place
          (create_class_position vehs).1 (create_class_position vehs).2.1
          (is_split && (create_class_position vehs).2.2) := rfl
  rw [hpipe]
  by_cases hflag : (is_split && (create_class_position vehs).2.2) = true
  · -- multi-class split mode
    have hmulti : create_standings_index (min_top_vehicles_in_class mtr)
        (max_vehicle_limit_set (min_top_vehicles_in_class mtr) ma mo mp)
        vehs.length plr plr_place
        (create_class_position vehs).1 (create_class_position vehs).2.1
        (is_split && (create_class_position vehs).2.2)
        = ((List.mergeSort
            (split_class_list (List.mergeSort (create_class_position vehs).1 classKeyLe))
            collectionLe).map
          (class_standings_for (min_top_vehicles_in_class mtr) plr
            (max_vehicle_limit_set (min_top_vehicles_in_class mtr) ma mo mp).2.1
            (max_vehicle_limit_set (min_top_vehicles_in_class mtr) ma mo mp).2.2)).join := by
      simp only [create_standings_index, hflag, if_true]
    rw [hmulti]
    refine scpl_standings_mem (List.mergeSort (get_vehicle_class_data vehs) rawVehLe)
      (List.mergeSort (create_class_position vehs).1 classKeyLe) plr
      (min_top_vehicles_in_class mtr) _ _ ?_ ?_ ?_ ?_ ?_ hT ?_
    · exact (List.sorted_mergeSort rawVehLe_trans rawVehLe_total _).imp
        (fun h => rawVehLe_name h)
    · rw [(List.mergeSort_perm _ rawVehLe).length_eq, get_vehicle_class_data_length]
      exact hn
    · exact List.sorted_mergeSort classKeyLe_trans classKeyLe_total _
    · exact (List.mergeSort_perm _ classKeyLe).trans
        (List.mergeSort_perm (create_position_in_class
          (List.mergeSort (get_vehicle_class_data vehs) rawVehLe)) classEntryLe)
    · rw [((List.mergeSort_perm (get_vehicle_class_data vehs) rawVehLe).map
          RawVeh.index).mem_iff, gvcd_map_index]
      exact List.mem_range.mpr hp
    · simp only [max_vehicle_limit_set, max_vehicles_in_class]
      push_cast
      omega
  · -- single-class mode
    have hflag' : (is_split && (create_class_position vehs).2.2) = false := by
      simpa using hflag
    have hsingle : create_standings_index (min_top_vehicles_in_class mtr)
        (max_vehicle_limit_set (min_top_vehicles_in_class mtr) ma mo mp)
        vehs.length plr plr_place
        (create_class_position vehs).1 (create_class_position vehs).2.1
        (is_split && (create_class_position vehs).2.2)
        = calc_standings_index (min_top_vehicles_in_class mtr) vehs.length
            (max_vehicle_limit_set (min_top_vehicles_in_class mtr) ma mo mp).1
            plr_place (create_class_position vehs).2.1 := by
      simp only [create_standings_index, hflag', if_false]
      rfl
    have hpil : (create_class_position vehs).2.1
        = List.mergeSort
            ((get_vehicle_class_data vehs).map (fun v : RawVeh => (v.position, v.index)))
            pairLe := rfl
    rw [hsingle, hpil]
    have hsorted := List.sorted_mergeSort pairLe_trans pairLe_total
      ((get_vehicle_class_data vehs).map (fun v : RawVeh => (v.position, v.index)))
    have hp1 := (List.mergeSort_perm
      ((get_vehicle_class_data vehs).map (fun v : RawVeh => (v.position, v.index)))
      pairLe).map Prod.fst
    rw [gvcd_pair_fst] at hp1
    have hfst := sorted_places_fst _ vehs.length hsorted (hp1.trans hperm)
    have hlen : (List.mergeSort
        ((get_vehicle_class_data vehs).map (fun v : RawVeh => (v.position, v.index)))
        pairLe).length = vehs.length := by
      rw [(List.mergeSort_perm _ pairLe).length_eq, List.length_map,
          get_vehicle_class_data_length]
    have hmem2 : (plr_place, plr) ∈ List.mergeSort
        ((get_vehicle_class_data vehs).map (fun v : RawVeh => (v.position, v.index)))
        pairLe := by
      rw [(List.mergeSort_perm _ pairLe).mem_iff, hplace]
      exact gvcd_pair_mem vehs plr hp
    have hfin := calc_standings_index_mem (min_top_vehicles_in_class mtr)
      (max_vehicle_limit_set (min_top_vehicles_in_class mtr) ma mo mp).1 plr_place _ plr
      hT (by simp only [max_vehicle_limit_set, max_vehicles_in_class]; push_cast; omega)
      (by rw [hlen]; exact hn) hfst hmem2
    rw [← hlen]
    exact hfin

/-- Witness for C4 at concrete inputs: a two-car single-class field (split
mode enabled but inactive) keeps the player at index 0, and a two-car
two-class field in split mode keeps the player at index 1. -/
theorem claim_C4_witness :
    ((0 : ℤ) ∈ standings_pipeline [⟨0, 2, 100⟩, ⟨0, 1, 90⟩] 0 2 1 10 10 10 true) ∧
    ((1 : ℤ) ∈ standings_pipeline [⟨0, 1, 100⟩, ⟨1, 2, 90⟩] 1 2 1 10 10 10 true) :=
  ⟨claim_C4 [⟨0, 2, 100⟩, ⟨0, 1, 90⟩] 0 2 1 10 10 10 true (by norm_num) (by norm_num)
      (by decide) (by decide),
   claim_C4 [⟨0, 1, 100⟩, ⟨1, 2, 90⟩] 1 2 1 10 10 10 true (by norm_num) (by norm_num)
      (by decide) (by decide)⟩

end TinyPedal